import Mathlib

/-!
Verification development for the workflow-builder repository.

The definitions below are shallow embeddings of the TypeScript sources
`src/components/wf-builder/workflowUtils.ts` (graph validation and cycle
detection) and `src/components/wf-builder/realExecution.ts` (the execution
engine `RealWorkflowExecutor`).  Conventions used throughout:

* JavaScript values that flow through `attributes`, `result` payloads and the
  script context are modelled by the inductive `JSValue`.  JavaScript numbers
  are abstracted to integers (no claim depends on float-specific behaviour);
  `String(...)` and `Number(...)` coercions are modelled by `jsToString` and
  `toNumber` (`none` plays the role of `NaN`).
* Wall-clock values (`Date.now()`, `new Date().toISOString()`, measured
  durations) are abstracted by the fixed string `Env.now` / the constant 0;
  only the shape of the log lines and payload fields depends on them.
* Asynchronous execution is modelled as a deterministic sequential
  interpretation: the branches launched through `Promise.allSettled` run one
  after the other, left to right, threading the shared mutable state; a
  rejected branch contributes its state mutations but its error is dropped,
  exactly as `allSettled` never rethrows.  This sequentialisation erases the
  await-point interleaving of the event loop.  In the source,
  `executedNodes.add(nodeId)` runs only after the awaited handler returns, so
  under the real interleaving two sibling branches can both pass the
  executed-set guard of a join node before either add runs and dispatch its
  handler twice; a guarantee whose truth depends on that guard being atomic
  with the dispatch-and-add therefore holds of this model only, not of the
  program.  The properties proved below are insensitive to the interleaving
  (the dependency gate is synchronous with the dispatch, and the final-status
  analysis, the abort behaviour and the single-chain scenarios do not depend
  on branch order), except where a statement says otherwise in so many
  words.
* Mutation of the shared `WorkflowExecutionResult` / `JobResult` objects is
  modelled by explicit state passing; thrown exceptions by an `Option String`
  (the thrown message) carried next to the mutated state.
* Unbounded recursion (the DFS of `wouldCreateCycle`, the BFS of
  `getReachableNodes`, the traversal `executeFromNode`) is embedded with an
  explicit fuel parameter; the top-level entry points supply a fuel that is
  provably sufficient (for the DFS this sufficiency is part of the proofs).
* Quote characters occurring inside some source message strings are dropped,
  because this development avoids apostrophes altogether.
* The fields `invocations` and `dispatchLog` of `EngineState` are pure
  instrumentation recording each handler dispatch (and the executed-set
  snapshot at that moment); they influence nothing.
-/

/-- Model of a JavaScript runtime value (numbers abstracted to integers). -/
inductive JSValue where
  | null : JSValue
  | str (s : String) : JSValue
  | num (n : Int) : JSValue
  | bool (b : Bool) : JSValue
  | obj (fields : List (String × JSValue)) : JSValue

/-- JavaScript truthiness. -/
def truthy : JSValue → Bool
  | .null => false
  | .str s => s ≠ ""
  | .num n => n ≠ 0
  | .bool b => b
  | .obj _ => true

/-- The JavaScript `String(...)` coercion on the modelled values. -/
def jsToString : JSValue → String
  | .null => "null"
  | .str s => s
  | .num n => toString n
  | .bool b => if b then "true" else "false"
  | .obj _ => "[object Object]"

/-- The JavaScript `Number(...)` coercion; `none` models `NaN`.
Fractional numerals are outside the integer abstraction and map to `none`. -/
def toNumber : JSValue → Option Int
  | .null => some 0
  | .str s => let t := s.trim; if t = "" then some 0 else t.toInt?
  | .num n => some n
  | .bool b => some (if b then 1 else 0)
  | .obj _ => none

/-- ASCII lowercase of one character (the lower-casing of the source acts
per character; the job-type names and condition operands are ASCII). -/
def charLower (c : Char) : Char :=
  if 65 ≤ c.toNat ∧ c.toNat ≤ 90 then Char.ofNat (c.toNat + 32) else c

/-- The lower-casing applied by the source, on the character list. -/
def strToLower (s : String) : String :=
  ⟨s.data.map charLower⟩

/-- Helper for `String.prototype.includes` on character lists. -/
def includesSub (hay needle : List Char) : Bool :=
  match hay with
  | [] => needle.isEmpty
  | _ :: t => if needle.isPrefixOf hay then true else includesSub t needle

/-- The JavaScript `hay.includes(needle)` on strings. -/
def jsIncludes (hay needle : String) : Bool :=
  includesSub hay.toList needle.toList

/-! ## Graph model (`workflowUtils.ts`) -/

/-- `WorkflowEdge` from `types.ts` (the `from` field is written `src` because
`from` is reserved in Lean). -/
structure WorkflowEdge where
  id : String
  src : String
  output : String
  tgt : String
  input : String

/-- `Handle` from `types.ts` (`required?: boolean` defaulted to `false`). -/
structure Handle where
  id : String
  type : String
  position : String
  required : Bool := false
  label : Option String := none

/-- `WorkflowNode` from `types.ts` (canvas position omitted: `validateWorkflow`
never reads it; `data.config` untouched by validation is kept abstract). -/
structure WorkflowNode where
  id : String
  type : String
  label : String
  handles : List Handle

/-- The directed edge pairs of an edge list. -/
def edgePairsOf (edges : List WorkflowEdge) : List (String × String) :=
  edges.map (fun e => (e.src, e.tgt))

/-- The edge pairs including the proposed edge, as built at the top of
`wouldCreateCycle`. -/
def augPairs (edges : List WorkflowEdge) (fromNodeId toNodeId : String) :
    List (String × String) :=
  edgePairsOf edges ++ [(fromNodeId, toNodeId)]

/-- The adjacency list of `pairs` at `n`: the `Map<string, Set<string>>`
entry (insertion order, duplicates merged as in a JS `Set`). -/
def adjOf (pairs : List (String × String)) (n : String) : List String :=
  ((pairs.filter (fun p => p.1 == n)).map Prod.snd).dedup

/-- `graph.keys()`: the distinct edge sources in insertion order. -/
def graphKeys (pairs : List (String × String)) : List String :=
  (pairs.map Prod.fst).dedup

/-- All node occurrences of the pair list (used to bound the DFS depth). -/
def allNodesList (pairs : List (String × String)) : List String :=
  pairs.map Prod.fst ++ pairs.map Prod.snd

mutual

/-- The recursive `hasCycle` closure of `wouldCreateCycle`: `visited` and the
recursion `stack` are threaded explicitly; the pair returned is
(cycle found, visited set after the call).  Fuel exhaustion (which the
sufficiency lemmas below rule out for the fuel used by `wouldCreateCycle`)
conservatively reports `true`. -/
def dfsVisit (adj : String → List String) (fuel : Nat) (n : String)
    (visited stack : List String) : Bool × List String :=
  match fuel with
  | 0 => (true, visited)
  | fuel' + 1 =>
    if n ∈ stack then (true, visited)
    else if n ∈ visited then (false, visited)
    else dfsVisitList adj fuel' (adj n) (n :: visited) (n :: stack)
termination_by (fuel, 0)

/-- The `for (const neighbor of neighbors)` loop of `hasCycle`. -/
def dfsVisitList (adj : String → List String) (fuel : Nat) (l : List String)
    (visited stack : List String) : Bool × List String :=
  match l with
  | [] => (false, visited)
  | nb :: rest =>
    match dfsVisit adj fuel nb visited stack with
    | (true, visited1) => (true, visited1)
    | (false, visited1) => dfsVisitList adj fuel rest visited1 stack
termination_by (fuel, l.length + 1)

end

/-- One iteration of the final `for (const nodeId of graph.keys())` loop of
`wouldCreateCycle`: skip once a cycle is found or the key is visited,
otherwise run `hasCycle` from the key with an empty recursion stack. -/
def dfsFoldStep (adj : String → List String) (fuel : Nat)
    (acc : Bool × List String) (k : String) : Bool × List String :=
  if acc.1 then acc
  else if k ∈ acc.2 then acc
  else dfsVisit adj fuel k acc.2 []

/-- `WorkflowUtils.wouldCreateCycle(fromNodeId, toNodeId, existingEdges)`:
adds the proposed edge, then runs the stack-marking DFS from every key. -/
def wouldCreateCycle (fromNodeId toNodeId : String)
    (existingEdges : List WorkflowEdge) : Bool :=
  ((graphKeys (augPairs existingEdges fromNodeId toNodeId)).foldl
    (dfsFoldStep (adjOf (augPairs existingEdges fromNodeId toNodeId))
      ((allNodesList (augPairs existingEdges fromNodeId toNodeId)).length + 1))
    (false, [])).1

/-- Modelled from the spec: one directed step along the edge pairs.  This and
`HasDirectedCycle` are the specification-side notion of a directed cycle that
`wouldCreateCycle` is compared against. -/
def EdgeStep (pairs : List (String × String)) (a b : String) : Prop :=
  (a, b) ∈ pairs

/-- Modelled from the spec: the edge set contains a directed cycle, i.e. some
node reaches itself in at least one step. -/
def HasDirectedCycle (pairs : List (String × String)) : Prop :=
  ∃ u, Relation.TransGen (EdgeStep pairs) u u

/-- Membership in the adjacency list coincides with the edge relation. -/
theorem mem_adjOf {pairs : List (String × String)} {a b : String} :
    b ∈ adjOf pairs a ↔ EdgeStep pairs a b := by
  simp only [adjOf, List.mem_dedup, List.mem_map, List.mem_filter, beq_iff_eq, EdgeStep]
  constructor
  · rintro ⟨⟨x, y⟩, ⟨hp, h1⟩, h2⟩
    simp only at h1 h2
    subst h1; subst h2; exact hp
  · intro h
    exact ⟨(a, b), ⟨h, rfl⟩, rfl⟩

/-- The visited set only grows along the DFS. -/
theorem dfsVisit_mono (adj : String → List String) :
    ∀ fuel : Nat,
      (∀ n visited stack, visited ⊆ (dfsVisit adj fuel n visited stack).2) ∧
      (∀ l visited stack, visited ⊆ (dfsVisitList adj fuel l visited stack).2) := by
  intro fuel
  induction fuel with
  | zero =>
    have hA : ∀ n visited stack, visited ⊆ (dfsVisit adj 0 n visited stack).2 := by
      intro n visited stack
      simp [dfsVisit]
    refine ⟨hA, ?_⟩
    intro l
    induction l with
    | nil => intro visited stack; simp [dfsVisitList]
    | cons nb rest ih =>
      intro visited stack
      simp only [dfsVisitList]
      rcases hres : dfsVisit adj 0 nb visited stack with ⟨b, v1⟩
      have hsub : visited ⊆ v1 := by
        have := hA nb visited stack
        rw [hres] at this
        exact this
      cases b
      · exact hsub.trans (ih v1 stack)
      · exact hsub
  | succ f ih =>
    obtain ⟨ihA, ihB⟩ := ih
    have hA : ∀ n visited stack, visited ⊆ (dfsVisit adj (f + 1) n visited stack).2 := by
      intro n visited stack
      rw [dfsVisit]
      by_cases h1 : n ∈ stack
      · simp [h1]
      · by_cases h2 : n ∈ visited
        · simp [h1, h2]
        · simp only [h1, h2, if_neg, if_false]
          exact (List.subset_cons_self n visited).trans
            (ihB (adj n) (n :: visited) (n :: stack))
    refine ⟨hA, ?_⟩
    intro l
    induction l with
    | nil => intro visited stack; simp [dfsVisitList]
    | cons nb rest ihl =>
      intro visited stack
      simp only [dfsVisitList]
      rcases hres : dfsVisit adj (f + 1) nb visited stack with ⟨b, v1⟩
      have hsub : visited ⊆ v1 := by
        have := hA nb visited stack
        rw [hres] at this
        exact this
      cases b
      · exact hsub.trans (ihl v1 stack)
      · exact hsub

/-- The recursion stack read bottom-up is a path: every entry steps to the one
pushed above it. -/
def StackChain (pairs : List (String × String)) (stack : List String) : Prop :=
  List.Chain' (fun a b => EdgeStep pairs b a) stack

/-- From any member of a chained stack there is a path up to its head. -/
theorem stackChain_reaches {pairs : List (String × String)} :
    ∀ {stack : List String} {hd : String}, StackChain pairs (hd :: stack) →
      ∀ {m}, m ∈ hd :: stack → Relation.ReflTransGen (EdgeStep pairs) m hd := by
  intro stack
  induction stack with
  | nil =>
    intro hd _ m hm
    have : m = hd := by simpa using hm
    subst this
    exact Relation.ReflTransGen.refl
  | cons b t ih =>
    intro hd hchain m hm
    rcases List.mem_cons.mp hm with h | h
    · subst h; exact Relation.ReflTransGen.refl
    · have hstep : EdgeStep pairs b hd := (List.chain'_cons.mp hchain).1
      have htail : StackChain pairs (b :: t) := (List.chain'_cons.mp hchain).2
      exact Relation.ReflTransGen.tail (ih htail h) hstep

/-- Soundness of the DFS: with sufficient fuel, a `true` verdict always comes
from a back edge into the recursion stack and therefore exhibits a cycle. -/
theorem dfs_sound (pairs : List (String × String)) :
    ∀ fuel : Nat,
      (∀ n visited stack,
        ((allNodesList pairs).toFinset \ visited.toFinset).card < fuel →
        n ∈ allNodesList pairs →
        StackChain pairs stack →
        (∀ hd tl, stack = hd :: tl → EdgeStep pairs hd n) →
        (dfsVisit (adjOf pairs) fuel n visited stack).1 = true →
        HasDirectedCycle pairs) ∧
      (∀ l visited hd tl,
        ((allNodesList pairs).toFinset \ visited.toFinset).card < fuel →
        (∀ x ∈ l, x ∈ allNodesList pairs) →
        StackChain pairs (hd :: tl) →
        (∀ x ∈ l, EdgeStep pairs hd x) →
        (dfsVisitList (adjOf pairs) fuel l visited (hd :: tl)).1 = true →
        HasDirectedCycle pairs) := by
  intro fuel
  induction fuel with
  | zero =>
    constructor
    · intro n visited stack hcard
      exact absurd hcard (Nat.not_lt_zero _)
    · intro l visited hd tl hcard
      exact absurd hcard (Nat.not_lt_zero _)
  | succ f ih =>
    obtain ⟨_, ihB⟩ := ih
    have hA : ∀ n visited stack,
        ((allNodesList pairs).toFinset \ visited.toFinset).card < f + 1 →
        n ∈ allNodesList pairs →
        StackChain pairs stack →
        (∀ hd tl, stack = hd :: tl → EdgeStep pairs hd n) →
        (dfsVisit (adjOf pairs) (f + 1) n visited stack).1 = true →
        HasDirectedCycle pairs := by
      intro n visited stack hcard hn hchain hcall htrue
      rw [dfsVisit] at htrue
      by_cases hstack : n ∈ stack
      · rcases stack with _ | ⟨hd, tl⟩
        · simp at hstack
        · have hstep : EdgeStep pairs hd n := hcall hd tl rfl
          have hreach : Relation.ReflTransGen (EdgeStep pairs) n hd :=
            stackChain_reaches hchain hstack
          exact ⟨n, Relation.TransGen.tail' hreach hstep⟩
      · by_cases hvis : n ∈ visited
        · simp [hstack, hvis] at htrue
        · simp only [if_neg hstack, if_neg hvis] at htrue
          have hcard' :
              ((allNodesList pairs).toFinset \ (n :: visited).toFinset).card < f := by
            have hss : (allNodesList pairs).toFinset \ (n :: visited).toFinset ⊂
                (allNodesList pairs).toFinset \ visited.toFinset := by
              constructor
              · intro x hx
                simp only [List.toFinset_cons, Finset.mem_sdiff, Finset.mem_insert] at hx
                simp only [Finset.mem_sdiff]
                exact ⟨hx.1, fun h => hx.2 (Or.inr h)⟩
              · intro hsub
                have hn' : n ∈ (allNodesList pairs).toFinset \ visited.toFinset := by
                  simp only [Finset.mem_sdiff, List.mem_toFinset]
                  exact ⟨hn, hvis⟩
                have := hsub hn'
                rw [List.toFinset_cons] at this
                exact (Finset.mem_sdiff.mp this).2 (Finset.mem_insert_self n _)
            have := Finset.card_lt_card hss
            omega
          refine ihB (adjOf pairs n) (n :: visited) n stack hcard' ?_ ?_ ?_ htrue
          · intro x hx
            have hstep : EdgeStep pairs n x := mem_adjOf.mp hx
            simp only [allNodesList, List.mem_append, List.mem_map]
            exact Or.inr ⟨(n, x), hstep, rfl⟩
          · rcases stack with _ | ⟨hd, tl⟩
            · exact List.chain'_singleton n
            · exact List.chain'_cons.mpr ⟨hcall hd tl rfl, hchain⟩
          · intro x hx
            exact mem_adjOf.mp hx
    refine ⟨hA, ?_⟩
    intro l
    induction l with
    | nil =>
      intro visited hd tl hcard hmem hchain hsteps htrue
      simp [dfsVisitList] at htrue
    | cons nb rest ihl =>
      intro visited hd tl hcard hmem hchain hsteps htrue
      rw [dfsVisitList] at htrue
      rcases hres : dfsVisit (adjOf pairs) (f + 1) nb visited (hd :: tl) with ⟨b, v1⟩
      rw [hres] at htrue
      cases b
      · simp only at htrue
        have hsub : visited ⊆ v1 := by
          have := (dfsVisit_mono (adjOf pairs) (f + 1)).1 nb visited (hd :: tl)
          rw [hres] at this
          exact this
        have hcard1 : ((allNodesList pairs).toFinset \ v1.toFinset).card < f + 1 := by
          have hsubF : (allNodesList pairs).toFinset \ v1.toFinset ⊆
              (allNodesList pairs).toFinset \ visited.toFinset := by
            intro x hx
            simp only [Finset.mem_sdiff, List.mem_toFinset] at hx ⊢
            exact ⟨hx.1, fun h => hx.2 (hsub h)⟩
          have := Finset.card_le_card hsubF
          omega
        exact ihl v1 hd tl hcard1 (fun x hx => hmem x (List.mem_cons_of_mem _ hx))
          hchain (fun x hx => hsteps x (List.mem_cons_of_mem _ hx)) htrue
      · refine hA nb visited (hd :: tl) hcard (hmem nb (List.mem_cons_self _ _))
          hchain ?_ ?_
        · intro hd' tl' heq
          cases heq
          exact hsteps nb (List.mem_cons_self _ _)
        · rw [hres]

/-- Invariant of the DFS on `false` returns: every fully explored node has all
its successors fully explored and lies on no directed cycle. -/
def SafeSet (pairs : List (String × String)) (visited stack : List String) : Prop :=
  ∀ u ∈ visited, u ∉ stack →
    (∀ v, EdgeStep pairs u v → v ∈ visited ∧ v ∉ stack) ∧
    ¬ Relation.TransGen (EdgeStep pairs) u u

/-- Reachability from a fully explored node stays within fully explored
nodes. -/
theorem safeSet_reach {pairs : List (String × String)} {visited stack : List String}
    (hs : SafeSet pairs visited stack) {u w : String}
    (h : Relation.ReflTransGen (EdgeStep pairs) u w) :
    u ∈ visited → u ∉ stack → w ∈ visited ∧ w ∉ stack := by
  induction h using Relation.ReflTransGen.head_induction_on with
  | refl => intro hu hnu; exact ⟨hu, hnu⟩
  | head hstep _ ihr =>
    intro hu hnu
    obtain ⟨hcl, _⟩ := hs _ hu hnu
    obtain ⟨hv, hnv⟩ := hcl _ hstep
    exact ihr hv hnv

/-- Completeness core: a `false` DFS verdict preserves the safety invariant,
grows the visited set, and finishes the node just explored. -/
theorem dfs_complete (pairs : List (String × String)) :
    ∀ fuel : Nat,
      (∀ n visited stack,
        SafeSet pairs visited stack →
        (dfsVisit (adjOf pairs) fuel n visited stack).1 = false →
        SafeSet pairs (dfsVisit (adjOf pairs) fuel n visited stack).2 stack ∧
        visited ⊆ (dfsVisit (adjOf pairs) fuel n visited stack).2 ∧
        n ∈ (dfsVisit (adjOf pairs) fuel n visited stack).2 ∧ n ∉ stack) ∧
      (∀ l visited stack,
        SafeSet pairs visited stack →
        (dfsVisitList (adjOf pairs) fuel l visited stack).1 = false →
        SafeSet pairs (dfsVisitList (adjOf pairs) fuel l visited stack).2 stack ∧
        visited ⊆ (dfsVisitList (adjOf pairs) fuel l visited stack).2 ∧
        ∀ x ∈ l, x ∈ (dfsVisitList (adjOf pairs) fuel l visited stack).2 ∧ x ∉ stack) := by
  have hBstep : ∀ f : Nat,
      (∀ n visited stack,
        SafeSet pairs visited stack →
        (dfsVisit (adjOf pairs) f n visited stack).1 = false →
        SafeSet pairs (dfsVisit (adjOf pairs) f n visited stack).2 stack ∧
        visited ⊆ (dfsVisit (adjOf pairs) f n visited stack).2 ∧
        n ∈ (dfsVisit (adjOf pairs) f n visited stack).2 ∧ n ∉ stack) →
      (∀ l visited stack,
        SafeSet pairs visited stack →
        (dfsVisitList (adjOf pairs) f l visited stack).1 = false →
        SafeSet pairs (dfsVisitList (adjOf pairs) f l visited stack).2 stack ∧
        visited ⊆ (dfsVisitList (adjOf pairs) f l visited stack).2 ∧
        ∀ x ∈ l, x ∈ (dfsVisitList (adjOf pairs) f l visited stack).2 ∧ x ∉ stack) := by
    intro f hA l
    induction l with
    | nil =>
      intro visited stack hsafe _
      refine ⟨by simpa [dfsVisitList] using hsafe, by simp [dfsVisitList], by simp⟩
    | cons nb rest ihl =>
      intro visited stack hsafe hfalse
      rw [dfsVisitList] at hfalse ⊢
      rcases hres : dfsVisit (adjOf pairs) f nb visited stack with ⟨b, v1⟩
      rw [hres] at hfalse
      cases b
      · simp only at hfalse ⊢
        have hAres := hA nb visited stack hsafe (by rw [hres])
        rw [hres] at hAres
        obtain ⟨hsafe1, hsub1, hnb1, hnbs⟩ := hAres
        obtain ⟨hsafe2, hsub2, hrest⟩ := ihl v1 stack hsafe1 hfalse
        refine ⟨hsafe2, hsub1.trans hsub2, ?_⟩
        intro x hx
        rcases List.mem_cons.mp hx with h | h
        · subst h; exact ⟨hsub2 hnb1, hnbs⟩
        · exact hrest x h
      · simp at hfalse
  intro fuel
  induction fuel with
  | zero =>
    have hA : ∀ n visited stack,
        SafeSet pairs visited stack →
        (dfsVisit (adjOf pairs) 0 n visited stack).1 = false →
        SafeSet pairs (dfsVisit (adjOf pairs) 0 n visited stack).2 stack ∧
        visited ⊆ (dfsVisit (adjOf pairs) 0 n visited stack).2 ∧
        n ∈ (dfsVisit (adjOf pairs) 0 n visited stack).2 ∧ n ∉ stack := by
      intro n visited stack _ hfalse
      simp [dfsVisit] at hfalse
    exact ⟨hA, hBstep 0 hA⟩
  | succ f ih =>
    obtain ⟨_, ihB⟩ := ih
    have hA : ∀ n visited stack,
        SafeSet pairs visited stack →
        (dfsVisit (adjOf pairs) (f + 1) n visited stack).1 = false →
        SafeSet pairs (dfsVisit (adjOf pairs) (f + 1) n visited stack).2 stack ∧
        visited ⊆ (dfsVisit (adjOf pairs) (f + 1) n visited stack).2 ∧
        n ∈ (dfsVisit (adjOf pairs) (f + 1) n visited stack).2 ∧ n ∉ stack := by
      intro n visited stack hsafe hfalse
      rw [dfsVisit] at hfalse ⊢
      by_cases hstack : n ∈ stack
      · simp [hstack] at hfalse
      · by_cases hvis : n ∈ visited
        · simp only [if_neg hstack, if_pos hvis]
          simp only [if_neg hstack, if_pos hvis] at hfalse
          exact ⟨hsafe, fun x hx => hx, hvis, hstack⟩
        · simp only [if_neg hstack, if_neg hvis] at hfalse ⊢
          have hsafe0 : SafeSet pairs (n :: visited) (n :: stack) := by
            intro u hu hustack
            have hun : u ≠ n := fun h => hustack (h ▸ List.mem_cons_self _ _)
            have hu' : u ∈ visited := by
              rcases List.mem_cons.mp hu with h | h
              · exact absurd h hun
              · exact h
            have hustack' : u ∉ stack := fun h => hustack (List.mem_cons_of_mem _ h)
            obtain ⟨hcl, hcyc⟩ := hsafe u hu' hustack'
            refine ⟨?_, hcyc⟩
            intro v hv
            obtain ⟨hv1, hv2⟩ := hcl v hv
            refine ⟨List.mem_cons_of_mem _ hv1, ?_⟩
            intro hvns
            rcases List.mem_cons.mp hvns with h | h
            · exact hvis (h ▸ hv1)
            · exact hv2 h
          have hBres := ihB (adjOf pairs n) (n :: visited) (n :: stack) hsafe0 hfalse
          obtain ⟨hsafe'', hsub'', hadj''⟩ := hBres
          set v2 := (dfsVisitList (adjOf pairs) f (adjOf pairs n) (n :: visited)
            (n :: stack)).2 with hv2def
          have hnv2 : n ∈ v2 := hsub'' (List.mem_cons_self _ _)
          have hvisv2 : visited ⊆ v2 := (List.subset_cons_self n visited).trans hsub''
          refine ⟨?_, hvisv2, hnv2, hstack⟩
          intro u hu hustack
          by_cases hun : u = n
          · subst hun
            constructor
            · intro v hv
              have hv' := hadj'' v (mem_adjOf.mpr hv)
              refine ⟨hv'.1, fun h => hv'.2 (List.mem_cons_of_mem _ h)⟩
            · intro hcyc
              rcases Relation.TransGen.head'_iff.mp hcyc with ⟨b, hstep, hreach⟩
              have hb := hadj'' b (mem_adjOf.mpr hstep)
              have := safeSet_reach hsafe'' hreach hb.1 hb.2
              exact this.2 (List.mem_cons_self _ _)
          · have hustack' : u ∉ n :: stack := by
              intro h
              rcases List.mem_cons.mp h with h' | h'
              · exact hun h'
              · exact hustack h'
            obtain ⟨hcl, hcyc⟩ := hsafe'' u hu hustack'
            refine ⟨?_, hcyc⟩
            intro v hv
            obtain ⟨hv1, hv2⟩ := hcl v hv
            exact ⟨hv1, fun h => hv2 (List.mem_cons_of_mem _ h)⟩
    exact ⟨hA, hBstep (f + 1) hA⟩

/-- Once the outer loop has found a cycle it only propagates that verdict. -/
theorem foldl_dfsFoldStep_true (adj : String → List String) (fuel : Nat) :
    ∀ (ks : List String) (v : List String),
      ks.foldl (dfsFoldStep adj fuel) (true, v) = (true, v) := by
  intro ks
  induction ks with
  | nil => intro v; rfl
  | cons k rest ih =>
    intro v
    rw [List.foldl_cons]
    have hstep : dfsFoldStep adj fuel (true, v) k = (true, v) := by
      simp [dfsFoldStep]
    rw [hstep]
    exact ih v

/-- Soundness of the outer loop of `wouldCreateCycle`. -/
theorem foldl_dfs_sound (pairs : List (String × String)) :
    ∀ (ks : List String) (acc : Bool × List String),
      (acc.1 = true → HasDirectedCycle pairs) →
      (∀ k ∈ ks, k ∈ allNodesList pairs) →
      ((allNodesList pairs).toFinset \ acc.2.toFinset).card <
        (allNodesList pairs).length + 1 →
      (ks.foldl (dfsFoldStep (adjOf pairs) ((allNodesList pairs).length + 1)) acc).1 =
        true →
      HasDirectedCycle pairs := by
  intro ks
  induction ks with
  | nil => intro acc hacc _ _ htrue; exact hacc htrue
  | cons k rest ih =>
    intro acc hacc hks hcard htrue
    rw [List.foldl_cons] at htrue
    by_cases h1 : acc.1 = true
    · exact hacc h1
    · by_cases h2 : k ∈ acc.2
      · have hstep : dfsFoldStep (adjOf pairs) ((allNodesList pairs).length + 1) acc k
            = acc := by
          simp [dfsFoldStep, h1, h2]
        rw [hstep] at htrue
        exact ih acc hacc (fun x hx => hks x (List.mem_cons_of_mem _ hx)) hcard htrue
      · have hstep : dfsFoldStep (adjOf pairs) ((allNodesList pairs).length + 1) acc k
            = dfsVisit (adjOf pairs) ((allNodesList pairs).length + 1) k acc.2 [] := by
          simp [dfsFoldStep, h1, h2]
        rw [hstep] at htrue
        have hrcyc :
            (dfsVisit (adjOf pairs) ((allNodesList pairs).length + 1) k acc.2 []).1 =
              true → HasDirectedCycle pairs := by
          intro hrt
          exact (dfs_sound pairs _).1 k acc.2 [] hcard (hks k (List.mem_cons_self _ _))
            List.chain'_nil (fun hd tl h => nomatch h) hrt
        have hsub : acc.2 ⊆
            (dfsVisit (adjOf pairs) ((allNodesList pairs).length + 1) k acc.2 []).2 :=
          (dfsVisit_mono (adjOf pairs) _).1 k acc.2 []
        have hcard' : ((allNodesList pairs).toFinset \
            (dfsVisit (adjOf pairs) ((allNodesList pairs).length + 1) k acc.2
              []).2.toFinset).card < (allNodesList pairs).length + 1 := by
          have hsubF : (allNodesList pairs).toFinset \
              (dfsVisit (adjOf pairs) ((allNodesList pairs).length + 1) k acc.2
                []).2.toFinset ⊆
              (allNodesList pairs).toFinset \ acc.2.toFinset := by
            intro x hx
            simp only [Finset.mem_sdiff, List.mem_toFinset] at hx ⊢
            exact ⟨hx.1, fun h => hx.2 (hsub h)⟩
          have := Finset.card_le_card hsubF
          omega
        exact ih _ hrcyc (fun x hx => hks x (List.mem_cons_of_mem _ hx)) hcard' htrue

/-- Completeness of the outer loop: a `false` verdict yields a safe visited
set that covers every key. -/
theorem foldl_dfs_complete (pairs : List (String × String)) (fuel : Nat) :
    ∀ (ks : List String) (acc : Bool × List String),
      SafeSet pairs acc.2 [] →
      (ks.foldl (dfsFoldStep (adjOf pairs) fuel) acc).1 = false →
      SafeSet pairs (ks.foldl (dfsFoldStep (adjOf pairs) fuel) acc).2 [] ∧
      acc.2 ⊆ (ks.foldl (dfsFoldStep (adjOf pairs) fuel) acc).2 ∧
      ∀ k ∈ ks, k ∈ (ks.foldl (dfsFoldStep (adjOf pairs) fuel) acc).2 := by
  intro ks
  induction ks with
  | nil =>
    intro acc hsafe _
    exact ⟨hsafe, fun x hx => hx, by simp⟩
  | cons k rest ih =>
    intro acc hsafe hfalse
    rw [List.foldl_cons] at hfalse ⊢
    by_cases h1 : acc.1 = true
    · exfalso
      have hacc : acc = (true, acc.2) := by
        rcases acc with ⟨b, v⟩
        simp only at h1
        rw [h1]
      rw [hacc] at hfalse
      have hstep : dfsFoldStep (adjOf pairs) fuel (true, acc.2) k = (true, acc.2) := by
        simp [dfsFoldStep]
      rw [hstep, foldl_dfsFoldStep_true] at hfalse
      simp at hfalse
    · by_cases h2 : k ∈ acc.2
      · have hstep : dfsFoldStep (adjOf pairs) fuel acc k = acc := by
          simp [dfsFoldStep, h1, h2]
        rw [hstep] at hfalse ⊢
        obtain ⟨hs, hsub, hmem⟩ := ih acc hsafe hfalse
        refine ⟨hs, hsub, ?_⟩
        intro x hx
        rcases List.mem_cons.mp hx with h | h
        · exact hsub (h ▸ h2)
        · exact hmem x h
      · have hstep : dfsFoldStep (adjOf pairs) fuel acc k
            = dfsVisit (adjOf pairs) fuel k acc.2 [] := by
          simp [dfsFoldStep, h1, h2]
        rw [hstep] at hfalse ⊢
        rcases hr1 : (dfsVisit (adjOf pairs) fuel k acc.2 []).1 with _ | _
        · have hcomp := (dfs_complete pairs fuel).1 k acc.2 [] hsafe hr1
          obtain ⟨hsafe1, hsub1, hk1, _⟩ := hcomp
          obtain ⟨hs, hsub, hmem⟩ :=
            ih (dfsVisit (adjOf pairs) fuel k acc.2 []) hsafe1 hfalse
          refine ⟨hs, hsub1.trans hsub, ?_⟩
          intro x hx
          rcases List.mem_cons.mp hx with h | h
          · exact hsub (h ▸ hk1)
          · exact hmem x h
        · exfalso
          have hr : dfsVisit (adjOf pairs) fuel k acc.2 []
              = (true, (dfsVisit (adjOf pairs) fuel k acc.2 []).2) := by
            rcases hres : dfsVisit (adjOf pairs) fuel k acc.2 [] with ⟨b, v⟩
            rw [hres] at hr1
            simp only at hr1
            rw [hr1]
          rw [hr, foldl_dfsFoldStep_true] at hfalse
          simp at hfalse

/-- Nodes with an outgoing edge are keys of the adjacency map. -/
theorem mem_graphKeys_of_step {pairs : List (String × String)} {u b : String}
    (h : EdgeStep pairs u b) : u ∈ graphKeys pairs := by
  simp only [graphKeys, List.mem_dedup, List.mem_map]
  exact ⟨(u, b), h, rfl⟩

/-- C8: `wouldCreateCycle` returns `true` exactly when the edge set together
with the proposed edge contains a directed cycle; the DFS back-edge test over
the augmented adjacency list is sound and complete for cycle existence. -/
theorem wouldCreateCycle_iff_hasDirectedCycle (fromNodeId toNodeId : String)
    (existingEdges : List WorkflowEdge) :
    wouldCreateCycle fromNodeId toNodeId existingEdges = true ↔
      HasDirectedCycle (augPairs existingEdges fromNodeId toNodeId) := by
  constructor
  · intro htrue
    rw [wouldCreateCycle] at htrue
    refine foldl_dfs_sound (augPairs existingEdges fromNodeId toNodeId)
      (graphKeys (augPairs existingEdges fromNodeId toNodeId)) (false, [])
      (fun h => by simp at h) ?_ ?_ htrue
    · intro k hk
      simp only [graphKeys, List.mem_dedup, List.mem_map] at hk
      simp only [allNodesList, List.mem_append, List.mem_map]
      exact Or.inl hk
    · simp only [List.toFinset_nil, Finset.sdiff_empty]
      have := List.toFinset_card_le (allNodesList (augPairs existingEdges fromNodeId toNodeId))
      omega
  · intro hcyc
    by_contra hne
    have hfalse : wouldCreateCycle fromNodeId toNodeId existingEdges = false :=
      Bool.not_eq_true _ ▸ (Bool.eq_false_iff.mpr (fun h => hne h))
    rw [wouldCreateCycle] at hfalse
    have hsafe0 : SafeSet (augPairs existingEdges fromNodeId toNodeId) [] [] := by
      intro u hu
      simp at hu
    obtain ⟨hsafeV, _, hkeys⟩ :=
      foldl_dfs_complete (augPairs existingEdges fromNodeId toNodeId)
        ((allNodesList (augPairs existingEdges fromNodeId toNodeId)).length + 1)
        (graphKeys (augPairs existingEdges fromNodeId toNodeId)) (false, [])
        hsafe0 hfalse
    rcases hcyc with ⟨u, hu⟩
    rcases Relation.TransGen.head'_iff.mp hu with ⟨b, hstep, _⟩
    have huV := hkeys u (mem_graphKeys_of_step hstep)
    have := hsafeV u huV (by simp)
    exact this.2 hu

/-- Breadth-first reachability worklist of `getReachableNodes`; one fuel unit
per loop iteration (the queue receives at most one push per start node plus
one per edge, so the fuel chosen by `getReachableNodes` suffices). -/
def bfsReach (edges : List WorkflowEdge) (fuel : Nat) (queue reach : List String) :
    List String :=
  match fuel with
  | 0 => reach
  | fuel' + 1 =>
    match queue with
    | [] => reach
    | c :: rest =>
      if c ∈ reach then bfsReach edges fuel' rest reach
      else
        let reach' := reach ++ [c]
        let pushes :=
          ((edges.filter (fun e => e.src == c)).map (fun e => e.tgt)).filter
            (fun t => !(t ∈ reach'))
        bfsReach edges fuel' (rest ++ pushes) reach'

/-- `WorkflowUtils.getReachableNodes` (BFS from the start nodes). -/
def getReachableNodes (startNodes : List WorkflowNode) (edges : List WorkflowEdge) :
    List String :=
  bfsReach edges (startNodes.length + edges.length + 1) (startNodes.map (·.id)) []

/-- `ValidationResult` from `types.ts`. -/
structure ValidationResult where
  isValid : Bool
  errors : List String
  warnings : List String

/-- `WorkflowUtils.validateWorkflow(nodes, edges)`.  Errors: missing Start
node, missing required input connections.  Warnings: isolated nodes,
unreachable nodes, dangling outputs. -/
def validateWorkflow (nodes : List WorkflowNode) (edges : List WorkflowEdge) :
    ValidationResult :=
  let startNodes := nodes.filter (fun n => n.type == "StartNode")
  let startErrors :=
    if startNodes.length == 0 then ["Workflow must have at least one Start node"]
    else []
  let connectedNodeIds := edges.flatMap (fun e => [e.src, e.tgt])
  let isolatedNodes :=
    nodes.filter (fun n => n.type != "StartNode" && !(n.id ∈ connectedNodeIds))
  let isolatedWarnings :=
    if isolatedNodes.length > 0 then
      [s!"{isolatedNodes.length} isolated node(s) found"]
    else []
  let requiredErrors :=
    nodes.flatMap (fun node =>
      (node.handles.filter (fun h => h.type == "input" && h.required)).filterMap
        (fun requiredInput =>
          if edges.any (fun e => e.tgt == node.id && e.input == requiredInput.id) then
            none
          else
            some s!"Node \"{node.label}\" is missing required input connection"))
  let unreachableWarnings :=
    if startNodes.length > 0 then
      let reachableNodes := getReachableNodes startNodes edges
      let unreachableNodes :=
        nodes.filter (fun n => n.type != "StartNode" && !(n.id ∈ reachableNodes))
      if unreachableNodes.length > 0 then
        [s!"{unreachableNodes.length} unreachable node(s) found"]
      else []
    else []
  let danglingOutputs :=
    nodes.filter (fun node =>
      (node.handles.filter (fun h => h.type == "output")).any (fun output =>
        !(edges.any (fun e => e.src == node.id && e.output == output.id))))
  let danglingWarnings :=
    if danglingOutputs.length > 0 then
      [s!"{danglingOutputs.length} node(s) have unconnected outputs"]
    else []
  let errors := startErrors ++ requiredErrors
  let warnings := isolatedWarnings ++ unreachableWarnings ++ danglingWarnings
  { isValid := errors.length == 0, errors := errors, warnings := warnings }

/-! ## Execution engine model (`realExecution.ts`) -/

/-- The `status` union of `JobExecutionResult`. -/
inductive JobStatus where
  | pending | running | completed | failed | skipped
deriving DecidableEq, Repr

/-- The `status` union of `WorkflowExecutionResult`. -/
inductive WorkflowStatus where
  | running | completed | failed | cancelled
deriving DecidableEq, Repr

/-- `JobExecutionResult` (timestamps are the abstract clock string). -/
structure JobResult where
  jobId : String
  type : String
  status : JobStatus
  startTime : Option String := none
  endTime : Option String := none
  result : Option JSValue := none
  error : Option String := none
  logs : List String := []
  label : Option String := none
  jobType : Option String := none

/-- `WorkflowExecutionResult`; the `Map<string, JobExecutionResult>` is an
insertion-ordered association list. -/
structure WorkflowExecutionResult where
  workflowId : String
  status : WorkflowStatus
  startTime : String
  endTime : Option String := none
  jobResults : List (String × JobResult)
  executionLogs : List String

/-- `Map.get`: first (unique) binding of the key. -/
def lookupJR (m : List (String × JobResult)) (k : String) : Option JobResult :=
  m.lookup k

/-- `Map.set`: overwrite in place, appending when the key is new. -/
def setJR : List (String × JobResult) → String → JobResult →
    List (String × JobResult)
  | [], k, v => [(k, v)]
  | (k', v') :: rest, k, v =>
    if k' == k then (k, v) :: rest else (k', v') :: setJR rest k v

/-- One entry of a Condition job attribute list `{field, operator, value}`. -/
structure ConditionSpec where
  field : String
  operator : String
  value : JSValue

/-- `JobConnection` from `types.ts`. -/
structure JobConnection where
  targetJobId : String
  condition : String

/-- `JobDependency` from `types.ts`. -/
structure JobDependency where
  sourceJobId : String
  condition : String

/-- The free-form `attributes: Record<string, any>` of a compiled job,
restricted to the keys actually read by the handlers.  Absent keys are `none`
(`undefined`); the JS falsy checks on these fields additionally treat `""`
(resp. `0`) as absent where the source uses `||`. -/
structure JobAttributes where
  nodeId : String
  label : String := ""
  triggerOnStart : Option JSValue := none
  url : Option String := none
  method : Option String := none
  headers : List (String × String) := []
  body : Option String := none
  timeout : Option Nat := none
  script : Option String := none
  code : Option String := none
  language : Option String := none
  conditions : Option (List ConditionSpec) := none
  logic : Option String := none
  «to» : Option (List String) := none
  cc : Option (List String) := none
  bcc : Option (List String) := none
  subject : Option String := none
  fromEmail : Option String := none
  provider : Option String := none
  templateId : Option String := none
  templateName : Option String := none
  title : Option String := none
  description : Option String := none
  assignee : Option String := none
  priority : Option String := none
  dueDate : Option String := none
  tags : Option (List String) := none

/-- `BackendJob` from `types.ts`. -/
structure BackendJob where
  type : String
  attributes : JobAttributes
  connections : List JobConnection
  dependencies : List JobDependency
  isConditional : Bool

/-- `ExecutionFlow` from `types.ts`. -/
structure ExecutionFlow where
  startNode : Option String
  totalJobs : Nat
  hasConditionalFlow : Bool

/-- `BackendJobsConfig` from `types.ts`. -/
structure BackendJobsConfig where
  jobs : List BackendJob
  executionFlow : ExecutionFlow

/-- The `SendEmailRequest` payload as populated by `executeSendEmailJob`
(field names follow the snake_case source keys). -/
structure EmailData where
  «to» : List String
  cc : Option (List String)
  bcc : Option (List String)
  subject : String
  body : String
  relatedId : String
  relatedClass : String
  fromEmail : Option String
  provider : Option String
  templateId : Option String
  templateName : Option String

/-- The request handed to the external `fetch` transport. -/
structure HttpRequest where
  url : String
  method : String
  headers : List (String × String)
  body : Option String
  timeoutMs : Nat

/-- Possible outcomes of the external `fetch` call as discriminated by
`executeAPICallJob`: the abort controller fired, a network-level failure whose
message contains `Failed to fetch`, some other exception, or a response. -/
inductive HttpOutcome where
  | abortError
  | failedToFetch
  | otherError (msg : String)
  | response (ok : Bool) (status : Nat) (statusText : String) (data : JSValue)

/-- Possible outcomes of evaluating a user script in the `Function`
sandbox: the timeout race fired, the script threw, or it produced a value. -/
inductive ScriptOutcome where
  | timeout
  | thrown (msg : String)
  | ok (value : JSValue)

/-- The external world: the abstract clock, the HTTP transport and the script
evaluator (the collaborators the engine consumes but does not implement). -/
structure Env where
  now : String
  http : HttpRequest → HttpOutcome
  scriptEval : String → List (String × JSValue) → ScriptOutcome

/-- The optional constructor arguments of `RealWorkflowExecutor` (observer
callbacks omitted: they receive values but influence none). -/
structure ExecutorOptions where
  emailSendFunction : Option (EmailData → Except String JSValue) := none
  scriptTimeout : Option Nat := none
  apiTimeout : Option Nat := none

/-- The executor state set up by the constructor. -/
structure RealWorkflowExecutor where
  emailSendFunction : Option (EmailData → Except String JSValue)
  scriptTimeout : Nat
  apiTimeout : Nat

/-- The `RealWorkflowExecutor` constructor: `scriptTimeout` defaults to
30000 ms and `apiTimeout` to 60000 ms. -/
def mkRealWorkflowExecutor (options : ExecutorOptions) : RealWorkflowExecutor :=
  { emailSendFunction := options.emailSendFunction
  , scriptTimeout := options.scriptTimeout.getD 30000
  , apiTimeout := options.apiTimeout.getD 60000 }

/-- `logJob`: append a timestamped line to the job log. -/
def logJobE (env : Env) (jr : JobResult) (message : String) : JobResult :=
  let ts := env.now
  { jr with logs := jr.logs ++ [s!"[{ts}] {message}"] }

/-- `log`: append a timestamped line to the run log. -/
def wrLog (env : Env) (wr : WorkflowExecutionResult) (message : String) :
    WorkflowExecutionResult :=
  let ts := env.now
  { wr with executionLogs := wr.executionLogs ++ [s!"[{ts}] {message}"] }

/-- JS object assignment `context[k] = v` (last write wins). -/
def ctxSet (ctx : List (String × JSValue)) (k : String) (v : JSValue) :
    List (String × JSValue) :=
  (ctx.filter (fun p => p.1 != k)) ++ [(k, v)]

/-- `getJobResultsForScript`: every job result with a truthy payload is bound
to its job id and to `<type lowercased>_result`. -/
def getJobResultsForScript (wr : WorkflowExecutionResult) :
    List (String × JSValue) :=
  wr.jobResults.foldl
    (fun ctx p =>
      match p.2.result with
      | some r =>
        if truthy r then ctxSet (ctxSet ctx p.1 r) (strToLower p.2.type ++ "_result") r
        else ctx
      | none => ctx)
    []

/-- `jobResult.result?.conditionResult` (`none` is JS `undefined`). -/
def resultConditionResult : Option JSValue → Option JSValue
  | some (.obj fields) => fields.lookup "conditionResult"
  | _ => none

/-- `executeStartJob` (the 100 ms cosmetic delay is dropped). -/
def executeStartJob (env : Env) (job : BackendJob) (jr : JobResult) :
    JobResult × Option String :=
  let jr := logJobE env jr "Starting real workflow execution"
  let payload := JSValue.obj
    [ ("started", .bool true)
    , ("timestamp", .str env.now)
    , ("triggerOnStart", job.attributes.triggerOnStart.getD .null)
    , ("executionMode", .str "REAL") ]
  let jr := { jr with result := some payload }
  (logJobE env jr "Real workflow started successfully", none)

/-- `timeout || this.apiTimeout` of `executeAPICallJob` (`0` is falsy). -/
def requestTimeoutOf (exec : RealWorkflowExecutor) (attrs : JobAttributes) : Nat :=
  match attrs.timeout with
  | some t => if t != 0 then t else exec.apiTimeout
  | none => exec.apiTimeout

/-- `executeAPICallJob`: checks the URL, issues the request under the
configured timeout through the `Env.http` transport, and maps the four
outcome classes to the source error messages (response parsing, measured
durations and the header echo in the logs are abstracted). -/
def executeAPICallJob (env : Env) (exec : RealWorkflowExecutor) (job : BackendJob)
    (jr : JobResult) : JobResult × Option String :=
  let attrs := job.attributes
  let method := attrs.method.getD "GET"
  match attrs.url with
  | none => (jr, some "API Call job requires a URL")
  | some url =>
    if url == "" then (jr, some "API Call job requires a URL")
    else
      let jr := logJobE env jr s!"Making REAL {method} request to: {url}"
      let jr := match attrs.body with
        | some b => if b != "" then logJobE env jr s!"Body: {b}" else jr
        | none => jr
      let requestTimeout := requestTimeoutOf exec attrs
      let req : HttpRequest :=
        { url := url
        , method := method
        , headers := attrs.headers
        , body := match attrs.body with
            | some b => if b != "" && method != "GET" then some b else none
            | none => none
        , timeoutMs := requestTimeout }
      let jr := logJobE env jr s!"Sending {method} request..."
      match env.http req with
      | .abortError =>
        let msg := s!"API call timed out after {requestTimeout}ms"
        (logJobE env jr msg, some msg)
      | .failedToFetch =>
        let msg := s!"Network error: Possible CORS issue or server unreachable. URL: {url}"
        let jr := logJobE env jr msg
        let jr := logJobE env jr "Tip: Ensure the API supports CORS or use a proxy server"
        (jr, some msg)
      | .otherError m =>
        (logJobE env jr s!"API call error: {m}", some s!"API call failed: {m}")
      | .response ok status statusText data =>
        let jr := logJobE env jr s!"Response received with status {status}"
        if !ok then
          let dataS := jsToString data
          let jr := logJobE env jr s!"API call failed with status {status}: {statusText}"
          let jr := logJobE env jr s!"Response: {dataS}"
          (jr, some s!"API call failed with status {status}: {statusText}")
        else
          let payload := JSValue.obj
            [ ("success", .bool ok)
            , ("statusCode", .num (Int.ofNat status))
            , ("statusText", .str statusText)
            , ("data", data)
            , ("executionDetails", .obj
                [ ("url", .str url)
                , ("method", .str method)
                , ("timestamp", .str env.now) ]) ]
          let jr := { jr with result := some payload }
          (logJobE env jr s!"REAL API call successful with status {status}", none)

/-- `executeScriptJob`: resolves the script from `script` or `code`, rejects
non-JavaScript languages, and runs the script through the `Env.scriptEval`
sandbox under `scriptTimeout`; console capture and measured durations are
abstracted. -/
def executeScriptJob (env : Env) (exec : RealWorkflowExecutor) (job : BackendJob)
    (jr : JobResult) (wr : WorkflowExecutionResult) : JobResult × Option String :=
  let attrs := job.attributes
  let scriptOpt :=
    match attrs.script with
    | some s => if s != "" then some s else attrs.code
    | none => attrs.code
  let language := attrs.language.getD "javascript"
  let foundS :=
    match scriptOpt with
    | some s => if s != "" then "YES" else "NO"
    | none => "NO"
  let jr := logJobE env jr s!"Script content found: {foundS}"
  match scriptOpt with
  | none =>
    (jr, some "Script job requires script content in script or code property.")
  | some s =>
    if s == "" then
      (jr, some "Script job requires script content in script or code property.")
    else if language != "javascript" then
      (jr, some s!"Script language {language} not supported. Only JavaScript is supported.")
    else
      let jr := logJobE env jr s!"Executing REAL {language} script"
      let ctx := getJobResultsForScript wr
      let jr := logJobE env jr "Executing script in controlled environment..."
      match env.scriptEval s ctx with
      | .timeout =>
        let t := exec.scriptTimeout
        (jr, some s!"Script execution failed: Script execution timed out after {t}ms")
      | .thrown m => (jr, some s!"Script execution failed: {m}")
      | .ok v =>
        let payload := JSValue.obj
          [ ("success", .bool true)
          , ("exitCode", .num 0)
          , ("language", .str language)
          , ("scriptResult", v)
          , ("executionMode", .str "REAL_FUNCTION") ]
        let jr := { jr with result := some payload }
        (logJobE env jr "REAL script executed successfully", none)

/-- The `SendEmailRequest` constructed at the top of `executeSendEmailJob`:
`to`, `subject` and `body` fall back to the fixed defaults when the attribute
is absent (or, for the strings, empty - JS falsiness of `||`). -/
def builtEmailData (env : Env) (job : BackendJob) : EmailData :=
  let attrs := job.attributes
  { «to» := match attrs.«to» with
      | some l => l
      | none => ["test@example.com"]
  , cc := attrs.cc
  , bcc := attrs.bcc
  , subject := match attrs.subject with
      | some s => if s != "" then s else "Workflow Email Notification"
      | none => "Workflow Email Notification"
  , body := match attrs.body with
      | some s => if s != "" then s else "This email was sent from a real workflow execution."
      | none => "This email was sent from a real workflow execution."
  , relatedId := s!"workflow_{env.now}"
  , relatedClass := "workflow"
  , fromEmail := attrs.fromEmail
  , provider := attrs.provider
  , templateId := attrs.templateId
  , templateName := attrs.templateName }

/-- `executeSendEmailJob`: builds the payload with defaults, fails when no
email-sending collaborator was injected, otherwise delegates to it and wraps
its failure message. -/
def executeSendEmailJob (env : Env) (exec : RealWorkflowExecutor) (job : BackendJob)
    (jr : JobResult) : JobResult × Option String :=
  let emailData := builtEmailData env job
  let toS := String.intercalate ", " emailData.«to»
  let jr := logJobE env jr s!"Preparing REAL email for: {toS}"
  let subj := emailData.subject
  let jr := logJobE env jr s!"Subject: {subj}"
  match exec.emailSendFunction with
  | none =>
    (jr, some "Email send function not provided to executor. Cannot send real emails.")
  | some sendFn =>
    let jr := logJobE env jr "Sending email via REAL email service..."
    match sendFn emailData with
    | .error m => (jr, some s!"Failed to send real email: {m}")
    | .ok v =>
      let spread := match v with | .obj fs => fs | _ => []
      let payload := JSValue.obj (spread ++
        [ ("executionDetails", .obj
            [ ("timestamp", .str env.now)
            , ("executionMode", .str "REAL_API") ]) ])
      let jr := { jr with result := some payload }
      (logJobE env jr "REAL email sent successfully", none)

/-- One case of the operator `switch` in `executeConditionJob`. -/
def evalConditionOp (operator : String) (fieldValue value : JSValue) :
    Except String Bool :=
  match operator with
  | "equals" => .ok (jsToString fieldValue == jsToString value)
  | "not_equals" => .ok (jsToString fieldValue != jsToString value)
  | "greater_than" => .ok
      (match toNumber fieldValue, toNumber value with
        | some a, some b => decide (a > b)
        | _, _ => false)
  | "less_than" => .ok
      (match toNumber fieldValue, toNumber value with
        | some a, some b => decide (a < b)
        | _, _ => false)
  | "contains" => .ok
      (jsIncludes (strToLower (jsToString fieldValue)) (strToLower (jsToString value)))
  | "not_contains" => .ok
      (!jsIncludes (strToLower (jsToString fieldValue)) (strToLower (jsToString value)))
  | "is_empty" => .ok (!truthy fieldValue || (jsToString fieldValue).trim == "")
  | "is_not_empty" => .ok (truthy fieldValue && (jsToString fieldValue).trim != "")
  | other => .error s!"Unknown operator: {other}"

/-- The `conditions.map(...)` loop of `executeConditionJob`: evaluates each
condition against the context in order, logging as the source does, and stops
at the first unknown operator. -/
def evalConditionsLoop (env : Env) (ctx : List (String × JSValue)) :
    List ConditionSpec → Nat → JobResult → JobResult × Except String (List Bool)
  | [], _, jr => (jr, .ok [])
  | c :: rest, index, jr =>
    let fieldLookup := ctx.lookup c.field
    let jr1 := match fieldLookup with
      | none => logJobE env jr s!"Warning: Field {c.field} not found in context, using null"
      | some _ => jr
    let fieldValue := fieldLookup.getD .null
    match evalConditionOp c.operator fieldValue c.value with
    | .error msg =>
      let i1 := index + 1
      (logJobE env jr1 s!"Error evaluating condition {i1}: {msg}", .error msg)
    | .ok b =>
      let fvS := jsToString fieldValue
      let vS := jsToString c.value
      let bS := if b then "true" else "false"
      let i1 := index + 1
      let op := c.operator
      let fd := c.field
      let jr2 := logJobE env jr1 s!"Condition {i1}: {fd} ({fvS}) {op} {vS} → {bS}"
      let r := evalConditionsLoop env ctx rest (index + 1) jr2
      match r.2 with
      | .ok bs => (r.1, .ok (b :: bs))
      | .error m => (r.1, .error m)

/-- `executeConditionJob`: evaluates the condition list against the context of
prior job results and combines with `AND`/`OR` into
`result.conditionResult`. -/
def executeConditionJob (env : Env) (job : BackendJob) (jr : JobResult)
    (wr : WorkflowExecutionResult) : JobResult × Option String :=
  let conditionsOpt := job.attributes.conditions
  let logic := job.attributes.logic.getD "AND"
  let condCount := (conditionsOpt.getD []).length
  let jr := logJobE env jr s!"Evaluating {condCount} REAL condition(s) with {logic} logic"
  match conditionsOpt with
  | none => (jr, some "Condition job requires at least one condition")
  | some [] => (jr, some "Condition job requires at least one condition")
  | some conds =>
    let contextData := getJobResultsForScript wr
    match evalConditionsLoop env contextData conds 0 jr with
    | (jr1, .error msg) => (jr1, some msg)
    | (jr1, .ok results) =>
      let conditionResult := if logic == "AND" then results.all id else results.any id
      let payload := JSValue.obj
        [ ("conditionResult", .bool conditionResult)
        , ("evaluatedConditions", .num (Int.ofNat conds.length))
        , ("logic", .str logic)
        , ("timestamp", .str env.now)
        , ("executionMode", .str "REAL") ]
      let jr2 := { jr1 with result := some payload }
      let crS := if conditionResult then "true" else "false"
      (logJobE env jr2 s!"REAL condition evaluation result: {crS}", none)

/-- `executeAddTaskJob` (placeholder task payload; the echo of the remaining
task attributes in the payload is abstracted). -/
def executeAddTaskJob (env : Env) (job : BackendJob) (jr : JobResult) :
    JobResult × Option String :=
  let attrs := job.attributes
  let title := match attrs.title with
    | some t => if t != "" then t else "Workflow Generated Task"
    | none => "Workflow Generated Task"
  let jr := logJobE env jr s!"Creating REAL task: {title}"
  let jr := logJobE env jr "TODO: Integrate with real task management API"
  let now := env.now
  let payload := JSValue.obj
    [ ("taskId", .str s!"real_task_{now}")
    , ("title", .str title)
    , ("status", .str "created")
    , ("createdAt", .str now)
    , ("executionMode", .str "REAL") ]
  let jr := { jr with result := some payload }
  (logJobE env jr s!"REAL task placeholder created: real_task_{now}", none)

/-- `executeEndJob` (the 100 ms cosmetic delay is dropped). -/
def executeEndJob (env : Env) (_job : BackendJob) (jr : JobResult) :
    JobResult × Option String :=
  let payload := JSValue.obj
    [ ("message", .str "Real workflow completed successfully")
    , ("terminatedAt", .str env.now)
    , ("finalStatus", .str "completed")
    , ("executionMode", .str "REAL") ]
  let jr := { jr with result := some payload }
  let jr := logJobE env jr "Real workflow termination initiated"
  let jr := logJobE env jr "All upstream jobs completed successfully"
  (logJobE env jr "Real workflow terminated gracefully", none)

/-- The `switch (job.type)` of `executeJob`. -/
def dispatchJob (env : Env) (exec : RealWorkflowExecutor) (job : BackendJob)
    (jr : JobResult) (wr : WorkflowExecutionResult) : JobResult × Option String :=
  match job.type with
  | "Start" => executeStartJob env job jr
  | "AddTask" => executeAddTaskJob env job jr
  | "Condition" => executeConditionJob env job jr wr
  | "APICall" => executeAPICallJob env exec job jr
  | "Script" => executeScriptJob env exec job jr wr
  | "SendEmail" => executeSendEmailJob env exec job jr
  | "End" => executeEndJob env job jr
  | other => (jr, some s!"Unknown job type: {other}")

/-- `executeJob`: marks the job running (visible to context readers through
the shared map), dispatches by kind, then folds success or the thrown message
into the job status, rethrowing the error. -/
def executeJob (env : Env) (exec : RealWorkflowExecutor) (job : BackendJob)
    (nodeId : String) (jr : JobResult) (wr : WorkflowExecutionResult) :
    JobResult × WorkflowExecutionResult × Option String :=
  let jt := job.type
  let lbl := job.attributes.label
  let jr1 : JobResult := { jr with status := .running, startTime := some env.now }
  let wr1 := wrLog env { wr with jobResults := setJR wr.jobResults nodeId jr1 }
    s!"REAL Executing {jt}: {lbl}"
  match dispatchJob env exec job jr1 wr1 with
  | (jr2, none) =>
    let jr3 : JobResult := { jr2 with status := .completed, endTime := some env.now }
    let wr2 := wrLog env { wr1 with jobResults := setJR wr1.jobResults nodeId jr3 }
      s!"REAL Completed {jt}: {lbl}"
    (jr3, wr2, none)
  | (jr2, some e) =>
    let jr3 : JobResult :=
      { jr2 with status := .failed, endTime := some env.now, error := some e }
    let wr2 := wrLog env { wr1 with jobResults := setJR wr1.jobResults nodeId jr3 }
      s!"REAL Failed {jt}: {lbl} - {e}"
    (jr3, wr2, some e)

/-- `getNextJobs`: a conditional job with a defined `conditionResult` follows
exactly the connections tagged with the boolean result; every other job
follows the connections tagged `out` or `default`. -/
def getNextJobs (job : BackendJob) (jr : JobResult) : List String :=
  if job.isConditional && (resultConditionResult jr.result).isSome then
    let conditionMet := (resultConditionResult jr.result).getD .null
    let targetCondition := if truthy conditionMet then "true" else "false"
    (job.connections.filter (fun c => c.condition == targetCondition)).map
      (·.targetJobId)
  else
    (job.connections.filter (fun c => c.condition == "out" || c.condition == "default")).map
      (·.targetJobId)

/-- The mutable run state threaded through the traversal: the shared
`WorkflowExecutionResult`, the executed set (insertion-ordered), plus the two
instrumentation traces (handler dispatches and the executed-set snapshot at
each dispatch), which nothing reads. -/
structure EngineState where
  wr : WorkflowExecutionResult
  executedNodes : List String
  invocations : List String
  dispatchLog : List (String × List String)

/-- Append a run-log line to the state. -/
def stLog (env : Env) (st : EngineState) (message : String) : EngineState :=
  { st with wr := wrLog env st.wr message }

/-- Replace one job result in the state. -/
def stSetJR (st : EngineState) (nodeId : String) (jr : JobResult) : EngineState :=
  { st with wr := { st.wr with jobResults := setJR st.wr.jobResults nodeId jr } }

/-- The predicate of the `pendingDependencies` filter: a dependency blocks
unless its source is in the executed set with `completed` or `failed`
status. -/
def depIsPending (st : EngineState) (dep : JobDependency) : Bool :=
  let isExecuted := dep.sourceJobId ∈ st.executedNodes
  let depStatus := (lookupJR st.wr.jobResults dep.sourceJobId).map (·.status)
  !isExecuted || (!(depStatus == some .completed) && !(depStatus == some .failed))

/-- `pendingDependencies` of the visited job. -/
def pendingDepsOf (st : EngineState) (job : BackendJob) : List JobDependency :=
  job.dependencies.filter (depIsPending st)

/-- `failedDependencies` of the visited job. -/
def failedDepsOf (st : EngineState) (job : BackendJob) : List JobDependency :=
  job.dependencies.filter (fun dep =>
    (lookupJR st.wr.jobResults dep.sourceJobId).map (·.status) == some .failed)

/-- The `${dep.sourceJobId} (${status})` rendering used in the two lists. -/
def depStatusString (st : EngineState) (dep : JobDependency) (missing : String) :
    String :=
  let s := match (lookupJR st.wr.jobResults dep.sourceJobId).map (·.status) with
    | some .pending => "pending"
    | some .running => "running"
    | some .completed => "completed"
    | some .failed => "failed"
    | some .skipped => "skipped"
    | none => missing
  dep.sourceJobId ++ " (" ++ s ++ ")"

/-- The per-dependency check log lines emitted while filtering. -/
def depCheckLogs (env : Env) (st : EngineState) (job : BackendJob) : EngineState :=
  job.dependencies.foldl
    (fun s dep =>
      let line := depStatusString s dep "undefined"
      stLog env s s!"Checking dependency: {line}")
    st

/-- The `${dep.sourceJobId} (${status})` list for the failed-dependency
warning. -/
def failedListString (st : EngineState) (job : BackendJob) : String :=
  String.intercalate ", "
    ((failedDepsOf st job).map (fun dep => depStatusString st dep "undefined"))

/-- The warning block for failed dependencies: run-log line plus a raw
(untimestamped) warning pushed onto the job log. -/
def applyFailedDepsWarning (env : Env) (st : EngineState) (nodeId : String)
    (job : BackendJob) : EngineState :=
  let failedDeps := failedDepsOf st job
  if failedDeps.isEmpty then st
  else
    let failedList := failedListString st job
    let lbl := job.attributes.label
    let st := stLog env st
      s!"Job {lbl} has failed dependencies but will continue: {failedList}"
    match lookupJR st.wr.jobResults nodeId with
    | some jr =>
      stSetJR st nodeId
        { jr with logs := jr.logs ++
            [s!"Warning: Continuing despite failed dependencies: {failedList}"] }
    | none => st

/-- The deferral block for unsatisfied dependencies: run-log line plus a raw
waiting line pushed onto the job log; the traversal then returns. -/
def applyWaitingLog (env : Env) (st : EngineState) (nodeId : String)
    (job : BackendJob) : EngineState :=
  let pendingDeps := pendingDepsOf st job
  let pendingList :=
    String.intercalate ", " (pendingDeps.map (fun dep => depStatusString st dep "unknown"))
  let lbl := job.attributes.label
  let st := stLog env st s!"Job {lbl} waiting for dependencies: {pendingList}"
  match lookupJR st.wr.jobResults nodeId with
  | some jr =>
    stSetJR st nodeId
      { jr with logs := jr.logs ++ [s!"Waiting for dependencies: {pendingList}"] }
  | none => st

/-- The `Job with ID ... not found` engine-level error message. -/
def jobNotFoundMsg (nodeId : String) (cfg : BackendJobsConfig) : String :=
  let available := String.intercalate ", " (cfg.jobs.map (·.attributes.nodeId))
  s!"Job with ID {nodeId} not found. Available jobs: {available}"

/-- `cfg.jobs.find(j => j.attributes.nodeId === nodeId)`. -/
def findJob (cfg : BackendJobsConfig) (nodeId : String) : Option BackendJob :=
  cfg.jobs.find? (fun j => j.attributes.nodeId == nodeId)

/-- One visit of `executeFromNode`, without the recursion into the next
nodes: returns the updated state, the list of next node ids to traverse, and
the thrown engine-level error, if any (only the job-not-found lookup throws;
handler errors are caught in the branch marked `catch` and the next nodes are
still traversed, as in the source). -/
def visitNode (env : Env) (exec : RealWorkflowExecutor) (cfg : BackendJobsConfig)
    (nodeId : String) (st : EngineState) :
    EngineState × List String × Option String :=
  let st := stLog env st s!"Attempting to execute node: {nodeId}"
  if nodeId ∈ st.executedNodes then
    (stLog env st s!"Node {nodeId} already executed, skipping", [], none)
  else
    match findJob cfg nodeId with
    | none =>
      let errorMsg := jobNotFoundMsg nodeId cfg
      (stLog env st errorMsg, [], some errorMsg)
    | some job =>
      let lbl := job.attributes.label
      let jt := job.type
      let st := stLog env st s!"Found job: {lbl} ({jt})"
      let st := depCheckLogs env st job
      let pendingDeps := pendingDepsOf st job
      let st := applyFailedDepsWarning env st nodeId job
      if !pendingDeps.isEmpty then
        (applyWaitingLog env st nodeId job, [], none)
      else
        let jr := (lookupJR st.wr.jobResults nodeId).getD
          { jobId := nodeId, type := job.type, status := .pending }
        let st := { st with
          invocations := st.invocations ++ [nodeId],
          dispatchLog := st.dispatchLog ++ [(nodeId, st.executedNodes)] }
        match executeJob env exec job nodeId jr st.wr with
        | (jr2, wr2, none) =>
          let st := { st with
            wr := wr2,
            executedNodes := st.executedNodes ++ [nodeId] }
          (st, getNextJobs job jr2, none)
        | (jr2, wr2, some err) =>
          -- catch: fold the failure into the job result, mark executed,
          -- log, and continue with the next jobs
          let jr3 : JobResult :=
            { jr2 with status := .failed, error := some err, endTime := some env.now }
          let wr3 := wrLog env { wr2 with jobResults := setJR wr2.jobResults nodeId jr3 }
            s!"Job {lbl} failed: {err} - Continuing with other jobs"
          let st := { st with
            wr := wr3,
            executedNodes := st.executedNodes ++ [nodeId] }
          (st, getNextJobs job jr3, none)

/-- The recursion of `executeFromNode` under the sequential interpretation of
`Promise.allSettled`, linearised into an explicit work stack: a visit pushes
its next nodes in front of its pending siblings, which is exactly the
depth-first, left-to-right order of the sequentialised recursion; the
engine-level errors of these deeper visits are dropped, as `allSettled` never
rethrows, and such a visit produces no next nodes.  Each branch here runs to
completion before its sibling starts, which the event loop does not
guarantee: see the header note on the executed-set guard. -/
def engineWorklist (env : Env) (exec : RealWorkflowExecutor)
    (cfg : BackendJobsConfig) : Nat → List String → EngineState → EngineState
  | 0, _, st => st
  | _ + 1, [], st => st
  | fuel + 1, n :: rest, st =>
    let r := visitNode env exec cfg n st
    engineWorklist env exec cfg fuel (r.2.1 ++ rest) r.1

/-- A fresh `pending` job result, as initialised by `executeWorkflow`. -/
def initJobResult (job : BackendJob) : JobResult :=
  { jobId := job.attributes.nodeId
  , type := job.type
  , status := .pending
  , logs := []
  , label := some job.attributes.label
  , jobType := some job.type }

/-- The `WorkflowExecutionResult` after the initialisation phase of
`executeWorkflow` (fresh id, `running`, one pending result per job, opening
log lines). -/
def initWorkflowResult (env : Env) (cfg : BackendJobsConfig) :
    WorkflowExecutionResult :=
  let now := env.now
  let njobs := cfg.jobs.length
  let wr : WorkflowExecutionResult :=
    { workflowId := s!"workflow_{now}"
    , status := .running
    , startTime := now
    , jobResults := []
    , executionLogs := [] }
  let wr := wrLog env wr s!"Starting REAL workflow execution with {njobs} jobs"
  cfg.jobs.foldl
    (fun w j =>
      { w with jobResults := setJR w.jobResults j.attributes.nodeId (initJobResult j) })
    wr

/-- The fuel handed to the worklist: one unit per visit.  Every visit is
caused either by the start node or by one connection of an executed job, and
each job executes at most once, so one unit per job plus one per declared
connection suffices. -/
def traversalFuel (cfg : BackendJobsConfig) : Nat :=
  cfg.jobs.length + (cfg.jobs.map (fun j => j.connections.length)).sum + 1

/-- The state in which the traversal starts. -/
def initState (env : Env) (cfg : BackendJobsConfig) (startNodeId : String) :
    EngineState :=
  let wr := initWorkflowResult env cfg
  let wr := wrLog env wr s!"Starting execution from node: {startNodeId}"
  { wr := wr, executedNodes := [], invocations := [], dispatchLog := [] }

/-- The whole traversal of one run: the start node is visited first and its
engine-level error, if any, aborts the run; the deeper visits follow on the
work stack with their errors dropped. -/
def runTraversal (env : Env) (exec : RealWorkflowExecutor)
    (cfg : BackendJobsConfig) (startNodeId : String) : EngineState × Option String :=
  let r := visitNode env exec cfg startNodeId (initState env cfg startNodeId)
  match r.2.2 with
  | some e => (r.1, some e)
  | none => (engineWorklist env exec cfg (traversalFuel cfg) r.2.1 r.1, none)

/-- The status rendering used in the final log lines. -/
def jobStatusName : JobStatus → String
  | .pending => "pending"
  | .running => "running"
  | .completed => "completed"
  | .failed => "failed"
  | .skipped => "skipped"

/-- The final-status analysis of `executeWorkflow` (lines 134-183): the run is
reported `completed` whether or not individual jobs failed, with the failures
enumerated in the run log. -/
def finalizeWorkflow (env : Env) (st : EngineState) : WorkflowExecutionResult :=
  let jobResultsList := st.wr.jobResults.map Prod.snd
  let failedJobs := jobResultsList.filter (fun j => j.status == .failed)
  let completedJobs := jobResultsList.filter (fun j => j.status == .completed)
  let skippedJobs := jobResultsList.filter
    (fun j => j.status == .pending || j.status == .skipped)
  let nFailed := failedJobs.length
  let nCompleted := completedJobs.length
  let nSkipped := skippedJobs.length
  if nFailed > 0 then
    let wr := { st.wr with status := WorkflowStatus.completed, endTime := some env.now }
    let wr := wrLog env wr
      s!"Workflow completed with {nFailed} failed job(s), {nCompleted} successful job(s)"
    let wr := failedJobs.foldl
      (fun w j =>
        let jid := j.jobId
        let jt := j.type
        let jerr := j.error.getD ""
        wrLog env w s!"Failed Job: {jid} ({jt}) - {jerr}")
      wr
    let wr :=
      if nCompleted > 0 then
        let names := String.intercalate ", "
          (completedJobs.map (fun j => j.jobId ++ " (" ++ j.type ++ ")"))
        wrLog env wr s!"Successful Jobs: {names}"
      else wr
    if nSkipped > 0 then
      let names := String.intercalate ", "
        (skippedJobs.map (fun j => j.jobId ++ " (" ++ j.type ++ ")"))
      wrLog env wr s!"Skipped/Pending Jobs: {names}"
    else wr
  else
    let wr := { st.wr with status := WorkflowStatus.completed, endTime := some env.now }
    wrLog env wr
      s!"Real workflow completed successfully - All {nCompleted} jobs executed successfully"

/-- `executeWorkflow`: initialises the run, resolves the start node (a
missing or empty start id and a failed start-job lookup are the engine-level
aborts, surfacing as `Except.error`), traverses, and finalises the status. -/
def executeWorkflow (env : Env) (exec : RealWorkflowExecutor)
    (cfg : BackendJobsConfig) : Except String WorkflowExecutionResult :=
  match cfg.executionFlow.startNode with
  | none => .error "No start node found in workflow"
  | some s =>
    if s == "" then .error "No start node found in workflow"
    else
      match runTraversal env exec cfg s with
      | (_, some e) => .error e
      | (st, none) => .ok (finalizeWorkflow env st)

/-! ## Concrete scenarios and observation helpers -/

/-- A fixed abstract clock with an unreachable-network HTTP transport and a
trivially succeeding script sandbox. -/
def envT : Env :=
  { now := "T", http := fun _ => .failedToFetch, scriptEval := fun _ _ => .ok (.str "ok") }

/-- An environment whose HTTP transport always hits the abort timeout. -/
def envAbort : Env :=
  { now := "T", http := fun _ => .abortError, scriptEval := fun _ _ => .ok .null }

/-- The executor built with no constructor options (all defaults). -/
def exec0 : RealWorkflowExecutor := mkRealWorkflowExecutor {}

/-- A compiled job with the given id, kind, connections (target, port) and
dependency source ids. -/
def simpleJob (id : String) (ty : String) (conns : List (String × String))
    (deps : List String) : BackendJob :=
  { type := ty
  , attributes := { nodeId := id, label := id }
  , connections := conns.map (fun p => { targetJobId := p.1, condition := p.2 })
  , dependencies := deps.map (fun d => { sourceJobId := d, condition := "out" })
  , isConditional := ty == "Condition" }

/-- The diamond document A→B, A→C, B→D, C→D with D depending on B and C. -/
def diamondCfg : BackendJobsConfig :=
  { jobs :=
      [ simpleJob "A" "Start" [("B", "out"), ("C", "out")] []
      , simpleJob "B" "AddTask" [("D", "out")] ["A"]
      , simpleJob "C" "AddTask" [("D", "out")] ["A"]
      , simpleJob "D" "End" [] ["B", "C"] ]
  , executionFlow := { startNode := some "A", totalJobs := 4, hasConditionalFlow := false } }

/-- Start → APICall(unreachable URL) → End, with End depending on the API
call having executed (not on it succeeding). -/
def apiCfg : BackendJobsConfig :=
  { jobs :=
      [ simpleJob "start" "Start" [("api", "out")] []
      , { simpleJob "api" "APICall" [("end", "out")] ["start"] with
          attributes := { nodeId := "api", label := "api", url := some "http-unreachable" } }
      , simpleJob "end" "End" [] ["api"] ]
  , executionFlow := { startNode := some "start", totalJobs := 3, hasConditionalFlow := false } }

/-- A document whose start job connects to an id that no compiled job has. -/
def ghostCfg : BackendJobsConfig :=
  { jobs := [ simpleJob "start" "Start" [("ghost", "out")] [] ]
  , executionFlow := { startNode := some "start", totalJobs := 1, hasConditionalFlow := false } }

/-- The Condition scenario: A = Condition(x equals "1") with true→T and
false→F, T and F End jobs depending on A. -/
def condCfg : BackendJobsConfig :=
  { jobs :=
      [ { simpleJob "A" "Condition" [("T", "true"), ("F", "false")] [] with
          attributes := { nodeId := "A", label := "A",
                          conditions := some [{ field := "x"
                                              , operator := "equals"
                                              , value := JSValue.str "1" }] } }
      , simpleJob "T" "End" [] ["A"]
      , simpleJob "F" "End" [] ["A"] ]
  , executionFlow := { startNode := some "A", totalJobs := 3, hasConditionalFlow := true } }

/-- The start state of the Condition scenario, seeded so that the script
context binds `x` to `"1"` (a prior job result with payload `"1"` under job
id `x`). -/
def condSeededState : EngineState :=
  let st := initState envT condCfg "A"
  let xjr : JobResult :=
    { jobId := "x", type := "Script", status := JobStatus.completed,
      result := some (JSValue.str "1") }
  { st with wr := { st.wr with jobResults := setJR st.wr.jobResults "x" xjr } }

/-- The run status of `executeWorkflow`, `none` when the run aborted. -/
def workflowStatusProbe (env : Env) (exec : RealWorkflowExecutor)
    (cfg : BackendJobsConfig) : Option WorkflowStatus :=
  match executeWorkflow env exec cfg with
  | .ok r => some r.status
  | .error _ => none

/-- The status of one job in the finished run. -/
def jobStatusProbe (env : Env) (exec : RealWorkflowExecutor)
    (cfg : BackendJobsConfig) (jobId : String) : Option JobStatus :=
  match executeWorkflow env exec cfg with
  | .ok r => (lookupJR r.jobResults jobId).map (·.status)
  | .error _ => none

/-- The run log of the finished run. -/
def runLogProbe (env : Env) (exec : RealWorkflowExecutor)
    (cfg : BackendJobsConfig) : List String :=
  match executeWorkflow env exec cfg with
  | .ok r => r.executionLogs
  | .error _ => []

/-! ## Engine lemmas -/

theorem stLog_executedNodes (env : Env) (st : EngineState) (m : String) :
    (stLog env st m).executedNodes = st.executedNodes := rfl

theorem stLog_invocations (env : Env) (st : EngineState) (m : String) :
    (stLog env st m).invocations = st.invocations := rfl

theorem stLog_dispatchLog (env : Env) (st : EngineState) (m : String) :
    (stLog env st m).dispatchLog = st.dispatchLog := rfl

theorem stLog_jobResults (env : Env) (st : EngineState) (m : String) :
    (stLog env st m).wr.jobResults = st.wr.jobResults := rfl

/-- The dependency-check logging touches only the run log. -/
theorem depCheckLogs_fields (env : Env) (st : EngineState) (job : BackendJob) :
    (depCheckLogs env st job).executedNodes = st.executedNodes ∧
    (depCheckLogs env st job).invocations = st.invocations ∧
    (depCheckLogs env st job).dispatchLog = st.dispatchLog ∧
    (depCheckLogs env st job).wr.jobResults = st.wr.jobResults := by
  unfold depCheckLogs
  generalize job.dependencies = l
  induction l generalizing st with
  | nil => exact ⟨rfl, rfl, rfl, rfl⟩
  | cons d rest ih =>
    rw [List.foldl_cons]
    exact ⟨(ih _).1, (ih _).2.1, (ih _).2.2.1, (ih _).2.2.2⟩

/-- The failed-dependency warning touches only logs of the run and the job. -/
theorem applyFailedDepsWarning_fields (env : Env) (st : EngineState)
    (n : String) (job : BackendJob) :
    (applyFailedDepsWarning env st n job).executedNodes = st.executedNodes ∧
    (applyFailedDepsWarning env st n job).invocations = st.invocations ∧
    (applyFailedDepsWarning env st n job).dispatchLog = st.dispatchLog := by
  simp only [applyFailedDepsWarning]
  split
  · exact ⟨rfl, rfl, rfl⟩
  · split
    · exact ⟨rfl, rfl, rfl⟩
    · exact ⟨rfl, rfl, rfl⟩

/-- The waiting log touches only logs of the run and the job. -/
theorem applyWaitingLog_fields (env : Env) (st : EngineState)
    (n : String) (job : BackendJob) :
    (applyWaitingLog env st n job).executedNodes = st.executedNodes ∧
    (applyWaitingLog env st n job).invocations = st.invocations ∧
    (applyWaitingLog env st n job).dispatchLog = st.dispatchLog := by
  simp only [applyWaitingLog]
  split
  · exact ⟨rfl, rfl, rfl⟩
  · exact ⟨rfl, rfl, rfl⟩

/-- The dependency gate reads only the executed set and the status map. -/
theorem pendingDepsOf_congr {st st' : EngineState} (job : BackendJob)
    (h1 : st'.executedNodes = st.executedNodes)
    (h2 : st'.wr.jobResults = st.wr.jobResults) :
    pendingDepsOf st' job = pendingDepsOf st job := by
  unfold pendingDepsOf
  congr 1
  funext dep
  simp only [depIsPending, lookupJR, h1, h2]

/-- An empty pending list means every declared dependency source is in the
executed set. -/
theorem gate_of_pending_empty {st : EngineState} {job : BackendJob}
    (h : pendingDepsOf st job = []) :
    ∀ dep ∈ job.dependencies, dep.sourceJobId ∈ st.executedNodes := by
  intro dep hdep
  have hf := List.filter_eq_nil_iff.mp h dep hdep
  unfold depIsPending at hf
  by_cases hmem : dep.sourceJobId ∈ st.executedNodes
  · exact hmem
  · exfalso
    apply hf
    simp [hmem]

/-- Classification of one visit: either the visit dispatches no handler and
leaves the executed set, the invocation trace and the dispatch log untouched
(guard hit, missing job, or deferral), or the visited job was found, every
declared dependency source was already in the executed set, and exactly one
invocation, one executed-set entry and one dispatch record for this node are
appended. -/
theorem visitNode_cases (env : Env) (exec : RealWorkflowExecutor)
    (cfg : BackendJobsConfig) (n : String) (st : EngineState) :
    ((visitNode env exec cfg n st).1.invocations = st.invocations ∧
     (visitNode env exec cfg n st).1.executedNodes = st.executedNodes ∧
     (visitNode env exec cfg n st).1.dispatchLog = st.dispatchLog ∧
     (visitNode env exec cfg n st).2.1 = []) ∨
    (n ∉ st.executedNodes ∧
     (∃ job, findJob cfg n = some job ∧
       ∀ dep ∈ job.dependencies, dep.sourceJobId ∈ st.executedNodes) ∧
     (visitNode env exec cfg n st).1.invocations = st.invocations ++ [n] ∧
     (visitNode env exec cfg n st).1.executedNodes = st.executedNodes ++ [n] ∧
     (visitNode env exec cfg n st).1.dispatchLog =
       st.dispatchLog ++ [(n, st.executedNodes)]) := by
  simp only [visitNode]
  split
  · exact Or.inl ⟨rfl, rfl, rfl, rfl⟩
  · rename_i hguard
    rw [stLog_executedNodes] at hguard
    split
    · exact Or.inl ⟨rfl, rfl, rfl, rfl⟩
    · rename_i job hfind
      split
      · refine Or.inl ⟨?_, ?_, ?_, rfl⟩
        · exact (applyWaitingLog_fields _ _ _ _).2.1.trans
            ((applyFailedDepsWarning_fields _ _ _ _).2.1.trans
              (depCheckLogs_fields _ _ _).2.1)
        · exact (applyWaitingLog_fields _ _ _ _).1.trans
            ((applyFailedDepsWarning_fields _ _ _ _).1.trans
              (depCheckLogs_fields _ _ _).1)
        · exact (applyWaitingLog_fields _ _ _ _).2.2.trans
            ((applyFailedDepsWarning_fields _ _ _ _).2.2.trans
              (depCheckLogs_fields _ _ _).2.2.1)
      · rename_i hpend
        have hpe : pendingDepsOf
            (depCheckLogs env (stLog env (stLog env st
              s!"Attempting to execute node: {n}") s!"Found job: {job.attributes.label} ({job.type})") job) job = [] := by
          rcases hlist : pendingDepsOf
            (depCheckLogs env (stLog env (stLog env st
              s!"Attempting to execute node: {n}") s!"Found job: {job.attributes.label} ({job.type})") job) job with _ | ⟨d, ds⟩
          · rfl
          · exfalso
            apply hpend
            rw [hlist]
            simp
        have hgate := gate_of_pending_empty hpe
        rw [(depCheckLogs_fields _ _ _).1] at hgate
        refine Or.inr ⟨hguard, ⟨job, hfind, hgate⟩, ?_⟩
        have hFw := applyFailedDepsWarning_fields env
          (depCheckLogs env (stLog env (stLog env st
            s!"Attempting to execute node: {n}") s!"Found job: {job.attributes.label} ({job.type})") job) n job
        have hDc := depCheckLogs_fields env (stLog env (stLog env st
          s!"Attempting to execute node: {n}") s!"Found job: {job.attributes.label} ({job.type})") job
        split
        · refine ⟨?_, ?_, ?_⟩
          · simp only [hFw.2.1, hDc.2.1, stLog_invocations]
          · simp only [hFw.1, hDc.1, stLog_executedNodes]
          · simp only [hFw.2.2, hDc.2.2.1, stLog_dispatchLog, hFw.1, hDc.1,
              stLog_executedNodes]
        · refine ⟨?_, ?_, ?_⟩
          · simp only [hFw.2.1, hDc.2.1, stLog_invocations]
          · simp only [hFw.1, hDc.1, stLog_executedNodes]
          · simp only [hFw.2.2, hDc.2.2.1, stLog_dispatchLog, hFw.1, hDc.1,
              stLog_executedNodes]

/-- The run invariant: the instrumented invocation trace coincides with the
executed set, the executed set has no duplicates, and every recorded dispatch
happened with every dependency source of the dispatched job already executed. -/
def EngineInv (cfg : BackendJobsConfig) (st : EngineState) : Prop :=
  st.invocations = st.executedNodes ∧ st.executedNodes.Nodup ∧
  ∀ r ∈ st.dispatchLog, ∀ job, findJob cfg r.1 = some job →
    ∀ dep ∈ job.dependencies, dep.sourceJobId ∈ r.2

/-- One visit preserves the run invariant. -/
theorem visitNode_inv (env : Env) (exec : RealWorkflowExecutor)
    (cfg : BackendJobsConfig) (n : String) (st : EngineState)
    (h : EngineInv cfg st) : EngineInv cfg (visitNode env exec cfg n st).1 := by
  rcases visitNode_cases env exec cfg n st with
    ⟨h1, h2, h3, _⟩ | ⟨hng, ⟨job, hfind, hgate⟩, h1, h2, h3⟩
  · exact ⟨h1.trans (h.1.trans h2.symm), h2 ▸ h.2.1, h3 ▸ h.2.2⟩
  · refine ⟨?_, ?_, ?_⟩
    · rw [h1, h2, h.1]
    · rw [h2]
      refine List.Nodup.append h.2.1 (List.nodup_singleton n) ?_
      intro a ha hb
      have : a = n := by simpa using hb
      exact hng (this ▸ ha)
    · rw [h3]
      intro r hr job' hfind' dep hdep
      rcases List.mem_append.mp hr with hold | hnew
      · exact h.2.2 r hold job' hfind' dep hdep
      · have : r = (n, st.executedNodes) := by simpa using hnew
        subst this
        have : job' = job := by
          have := hfind'.symm.trans hfind
          exact Option.some.inj this
        subst this
        exact hgate dep hdep

/-- The work stack preserves the run invariant. -/
theorem engineWorklist_inv (env : Env) (exec : RealWorkflowExecutor)
    (cfg : BackendJobsConfig) :
    ∀ (fuel : Nat) (l : List String) (st : EngineState), EngineInv cfg st →
      EngineInv cfg (engineWorklist env exec cfg fuel l st) := by
  intro fuel
  induction fuel with
  | zero => intro l st h; simpa [engineWorklist] using h
  | succ f ih =>
    intro l st h
    match l with
    | [] => simpa [engineWorklist] using h
    | n :: rest =>
      rw [engineWorklist]
      exact ih _ _ (visitNode_inv env exec cfg n st h)

/-- The invariant holds throughout the whole run. -/
theorem runTraversal_inv (env : Env) (exec : RealWorkflowExecutor)
    (cfg : BackendJobsConfig) (s : String) :
    EngineInv cfg (runTraversal env exec cfg s).1 := by
  have h0 : EngineInv cfg (initState env cfg s) := by
    refine ⟨rfl, List.nodup_nil, ?_⟩
    intro r hr
    simp [initState] at hr
  have h1 := visitNode_inv env exec cfg s (initState env cfg s) h0
  simp only [runTraversal]
  split
  · exact h1
  · exact engineWorklist_inv env exec cfg _ _ _ h1

/-- A visit of a node whose job exists but whose dependency gate is not yet
satisfied defers: it dispatches nothing, schedules nothing and throws
nothing. -/
theorem visitNode_defer (env : Env) (exec : RealWorkflowExecutor)
    (cfg : BackendJobsConfig) (n : String) (st : EngineState) (job : BackendJob)
    (hg : n ∉ st.executedNodes) (hfind : findJob cfg n = some job)
    (hpend : pendingDepsOf st job ≠ []) :
    (visitNode env exec cfg n st).2.1 = [] ∧
    (visitNode env exec cfg n st).2.2 = none ∧
    (visitNode env exec cfg n st).1.invocations = st.invocations ∧
    (visitNode env exec cfg n st).1.executedNodes = st.executedNodes := by
  simp only [visitNode]
  split
  · rename_i hguard
    rw [stLog_executedNodes] at hguard
    exact absurd hguard hg
  · split
    · rename_i hnone
      rw [hfind] at hnone
      cases hnone
    · rename_i jobF hfindF
      have hjob : jobF = job := by
        rw [hfind] at hfindF
        exact (Option.some.inj hfindF).symm
      have hpendF : pendingDepsOf st jobF ≠ [] := by
        rw [hjob]; exact hpend
      split
      · refine ⟨rfl, rfl, ?_, ?_⟩
        · exact (applyWaitingLog_fields _ _ _ _).2.1.trans
            ((applyFailedDepsWarning_fields _ _ _ _).2.1.trans
              (depCheckLogs_fields _ _ _).2.1)
        · exact (applyWaitingLog_fields _ _ _ _).1.trans
            ((applyFailedDepsWarning_fields _ _ _ _).1.trans
              (depCheckLogs_fields _ _ _).1)
      · rename_i hnp
        exfalso
        apply hnp
        have hcongr : pendingDepsOf
            (depCheckLogs env (stLog env (stLog env st
              s!"Attempting to execute node: {n}")
              s!"Found job: {jobF.attributes.label} ({jobF.type})") jobF) jobF =
            pendingDepsOf st jobF := by
          exact pendingDepsOf_congr jobF
            ((depCheckLogs_fields _ _ _).1.trans (stLog_executedNodes _ _ _))
            ((depCheckLogs_fields _ _ _).2.2.2.trans (stLog_jobResults _ _ _))
        rw [hcongr]
        rcases hl : pendingDepsOf st jobF with _ | ⟨d, ds⟩
        · exact absurd hl hpendF
        · simp

/-- The only engine-level error a visit can throw is the job-not-found error,
and such a visit schedules nothing. -/
theorem visitNode_error_cases (env : Env) (exec : RealWorkflowExecutor)
    (cfg : BackendJobsConfig) (n : String) (st : EngineState) :
    (visitNode env exec cfg n st).2.2 = none ∨
    ((visitNode env exec cfg n st).2.2 = some (jobNotFoundMsg n cfg) ∧
     n ∉ st.executedNodes ∧ findJob cfg n = none ∧
     (visitNode env exec cfg n st).2.1 = []) := by
  simp only [visitNode]
  split
  · exact Or.inl rfl
  · rename_i hguard
    rw [stLog_executedNodes] at hguard
    split
    · rename_i hnone
      exact Or.inr ⟨rfl, hguard, hnone, rfl⟩
    · split
      · exact Or.inl rfl
      · split
        · exact Or.inl rfl
        · exact Or.inl rfl

/-- A visit of a node whose job exists never throws. -/
theorem visitNode_no_error (env : Env) (exec : RealWorkflowExecutor)
    (cfg : BackendJobsConfig) (n : String) (st : EngineState) (job : BackendJob)
    (hfind : findJob cfg n = some job) :
    (visitNode env exec cfg n st).2.2 = none := by
  rcases visitNode_error_cases env exec cfg n st with h | ⟨_, _, hnone, _⟩
  · exact h
  · rw [hfind] at hnone
    cases hnone

theorem wrLog_status (env : Env) (wr : WorkflowExecutionResult) (m : String) :
    (wrLog env wr m).status = wr.status := rfl

/-- Logging the failed jobs one by one does not touch the run status. -/
theorem foldl_wrLog_status (env : Env) (g : JobResult → String) :
    ∀ (l : List JobResult) (wr : WorkflowExecutionResult),
      (l.foldl (fun w j => wrLog env w (g j)) wr).status = wr.status := by
  intro l
  induction l with
  | nil => intro wr; rfl
  | cons j rest ih => intro wr; rw [List.foldl_cons]; exact ih _

/-- The final-status analysis always reports the run `completed`. -/
theorem finalizeWorkflow_status (env : Env) (st : EngineState) :
    (finalizeWorkflow env st).status = WorkflowStatus.completed := by
  simp only [finalizeWorkflow]
  split
  · split <;> split <;> simp [wrLog_status, foldl_wrLog_status]
  · simp [wrLog_status]

/-- A run that returns a result reports it `completed`. -/
theorem executeWorkflow_ok_status (env : Env) (exec : RealWorkflowExecutor)
    (cfg : BackendJobsConfig) (r : WorkflowExecutionResult)
    (h : executeWorkflow env exec cfg = Except.ok r) :
    r.status = WorkflowStatus.completed := by
  unfold executeWorkflow at h
  split at h
  · cases h
  · split at h
    · cases h
    · split at h
      · cases h
      · rename_i heq
        have : r = finalizeWorkflow env _ := (Except.ok.inj h).symm
        rw [this]
        exact finalizeWorkflow_status env _

/-- When the start node id resolves to a job, the run never aborts. -/
theorem executeWorkflow_ok_of_start_found (env : Env) (exec : RealWorkflowExecutor)
    (cfg : BackendJobsConfig) (s : String) (job : BackendJob)
    (h1 : cfg.executionFlow.startNode = some s) (h2 : s ≠ "")
    (h3 : findJob cfg s = some job) :
    ∃ r, executeWorkflow env exec cfg = Except.ok r ∧
      r.status = WorkflowStatus.completed := by
  have hnoerr : (runTraversal env exec cfg s).2 = none := by
    simp only [runTraversal]
    rw [visitNode_no_error env exec cfg s (initState env cfg s) job h3]
  have hs : (s == "") = false := by simpa using h2
  rcases hrt : runTraversal env exec cfg s with ⟨st, e⟩
  rw [hrt] at hnoerr
  simp only at hnoerr
  subst hnoerr
  refine ⟨finalizeWorkflow env st, ?_, finalizeWorkflow_status env st⟩
  simp [executeWorkflow, h1, hs, hrt]

/-- A fresh visit of an id with no job throws the job-not-found error,
schedules nothing and dispatches nothing. -/
theorem visitNode_notfound (env : Env) (exec : RealWorkflowExecutor)
    (cfg : BackendJobsConfig) (n : String) (st : EngineState)
    (hg : n ∉ st.executedNodes) (hfind : findJob cfg n = none) :
    (visitNode env exec cfg n st).2.2 = some (jobNotFoundMsg n cfg) ∧
    (visitNode env exec cfg n st).2.1 = [] ∧
    (visitNode env exec cfg n st).1.invocations = st.invocations := by
  simp only [visitNode]
  split
  · rename_i hguard
    rw [stLog_executedNodes] at hguard
    exact absurd hguard hg
  · split
    · exact ⟨rfl, rfl, rfl⟩
    · rename_i job hf
      rw [hfind] at hf
      cases hf

/-- When the start job lookup fails, the run aborts with the job-not-found
error. -/
theorem executeWorkflow_abort_of_start_missing (env : Env)
    (exec : RealWorkflowExecutor) (cfg : BackendJobsConfig) (s : String)
    (h1 : cfg.executionFlow.startNode = some s) (h2 : s ≠ "")
    (h3 : findJob cfg s = none) :
    executeWorkflow env exec cfg = Except.error (jobNotFoundMsg s cfg) := by
  have hg : s ∉ (initState env cfg s).executedNodes := by
    intro h
    simp [initState] at h
  have herr := (visitNode_notfound env exec cfg s (initState env cfg s) hg h3).1
  have hs : (s == "") = false := by simpa using h2
  have hrt : (runTraversal env exec cfg s).2 = some (jobNotFoundMsg s cfg) := by
    simp only [runTraversal]
    rw [herr]
  rcases hr : runTraversal env exec cfg s with ⟨st1, e⟩
  rw [hr] at hrt
  simp only at hrt
  subst hrt
  simp [executeWorkflow, h1, hs, hr]

deriving instance DecidableEq for JobConnection
deriving instance DecidableEq for JobDependency

/-- `Map.set` then `Map.get` of the same key yields the stored value. -/
theorem lookupJR_setJR_self (m : List (String × JobResult)) (k : String)
    (v : JobResult) : lookupJR (setJR m k v) k = some v := by
  induction m with
  | nil => simp [setJR, lookupJR, List.lookup]
  | cons p rest ih =>
    rcases p with ⟨k1, v1⟩
    simp only [setJR]
    by_cases h : k1 = k
    · subst h
      simp [lookupJR, List.lookup]
    · have hb : (k1 == k) = false := by simpa using h
      rw [hb]
      simp only [Bool.false_eq_true, if_false]
      have hb2 : (k == k1) = false := by simpa using Ne.symm h
      simpa [lookupJR, List.lookup, hb2] using ih

/-- In the sequentialised traversal every run invokes each job id at most
once, and on the diamond document A→B, A→C, B→D, C→D the handler of D is
dispatched exactly once.  This is a property of the sequential model only:
the source adds a node to `executedNodes` only after awaiting its handler,
so under the event-loop interleaving the two branches of the diamond can
both pass the guard of D before either add runs, dispatching the handler of
D twice - the at-most-once guarantee is false of the program. -/
theorem sequential_traversal_single_invocation :
    (∀ (env : Env) (exec : RealWorkflowExecutor) (cfg : BackendJobsConfig)
      (s j : String), (runTraversal env exec cfg s).1.invocations.count j ≤ 1) ∧
    (runTraversal envT exec0 diamondCfg "A").1.invocations = ["A", "B", "C", "D"] ∧
    (runTraversal envT exec0 diamondCfg "A").1.invocations.count "D" = 1 := by
  refine ⟨?_, by decide, by decide⟩
  intro env exec cfg s j
  have h := runTraversal_inv env exec cfg s
  rw [h.1]
  exact List.nodup_iff_count_le_one.mp h.2.1 j

/-! ## Claim theorems -/

/-- C2: (1) every handler dispatch in a run happens only when all declared
dependency sources of the job are already in the executed set (read off the
dispatch instrumentation); (2) a visit that finds pending dependencies defers
without dispatching, scheduling or throwing; (3) a dependency whose source is
executed with `failed` status is not pending, so it does not block; (4) when
failed dependencies exist, the warning line is appended to the log of the
visited job. -/
theorem dependency_gate_and_deferral :
    (∀ (env : Env) (exec : RealWorkflowExecutor) (cfg : BackendJobsConfig)
      (s : String) (r : String × List String),
      r ∈ (runTraversal env exec cfg s).1.dispatchLog →
      ∀ job, findJob cfg r.1 = some job →
        ∀ dep ∈ job.dependencies, dep.sourceJobId ∈ r.2) ∧
    (∀ (env : Env) (exec : RealWorkflowExecutor) (cfg : BackendJobsConfig)
      (n : String) (st : EngineState) (job : BackendJob),
      n ∉ st.executedNodes → findJob cfg n = some job →
      pendingDepsOf st job ≠ [] →
      (visitNode env exec cfg n st).2.1 = [] ∧
      (visitNode env exec cfg n st).2.2 = none ∧
      (visitNode env exec cfg n st).1.invocations = st.invocations ∧
      (visitNode env exec cfg n st).1.executedNodes = st.executedNodes) ∧
    (∀ (st : EngineState) (dep : JobDependency),
      dep.sourceJobId ∈ st.executedNodes →
      (lookupJR st.wr.jobResults dep.sourceJobId).map (·.status) =
        some JobStatus.failed →
      depIsPending st dep = false) ∧
    (∀ (env : Env) (st : EngineState) (n : String) (job : BackendJob)
      (jr : JobResult),
      failedDepsOf st job ≠ [] →
      lookupJR st.wr.jobResults n = some jr →
      ∃ jr2,
        lookupJR (applyFailedDepsWarning env st n job).wr.jobResults n = some jr2 ∧
        jr2.logs = jr.logs ++
          [s!"Warning: Continuing despite failed dependencies: {failedListString st job}"]) := by
  refine ⟨?_, ?_, ?_, ?_⟩
  · intro env exec cfg s r hr job hfind dep hdep
    exact (runTraversal_inv env exec cfg s).2.2 r hr job hfind dep hdep
  · intro env exec cfg n st job hg hfind hpend
    exact visitNode_defer env exec cfg n st job hg hfind hpend
  · intro st dep hmem hstatus
    simp [depIsPending, hmem, hstatus]
  · intro env st n job jr hfail hlook
    simp only [applyFailedDepsWarning]
    rw [if_neg (by simpa [List.isEmpty_iff] using hfail)]
    rw [stLog_jobResults, hlook]
    refine ⟨{ jr with logs := jr.logs ++
      [s!"Warning: Continuing despite failed dependencies: {failedListString st job}"] },
      ?_, rfl⟩
    simp only [stSetJR]
    exact lookupJR_setJR_self _ _ _

/-- C3: job-level failures never abort a run - whenever the start job
resolves the run produces a result, any produced result reports status
`completed` - and in the Start → APICall(unreachable URL) → End scenario the
run completes with the API job `failed` and the End job `completed`. -/
theorem job_failure_never_aborts :
    (∀ (env : Env) (exec : RealWorkflowExecutor) (cfg : BackendJobsConfig)
      (r : WorkflowExecutionResult), executeWorkflow env exec cfg = Except.ok r →
      r.status = WorkflowStatus.completed) ∧
    (∀ (env : Env) (exec : RealWorkflowExecutor) (cfg : BackendJobsConfig)
      (s : String) (job : BackendJob),
      cfg.executionFlow.startNode = some s → s ≠ "" → findJob cfg s = some job →
      ∃ r, executeWorkflow env exec cfg = Except.ok r ∧
        r.status = WorkflowStatus.completed) ∧
    (workflowStatusProbe envT exec0 apiCfg = some WorkflowStatus.completed ∧
     jobStatusProbe envT exec0 apiCfg "api" = some JobStatus.failed ∧
     jobStatusProbe envT exec0 apiCfg "end" = some JobStatus.completed) := by
  refine ⟨?_, ?_, by decide, by decide, by decide⟩
  · intro env exec cfg r h
    exact executeWorkflow_ok_status env exec cfg r h
  · intro env exec cfg s job h1 h2 h3
    exact executeWorkflow_ok_of_start_found env exec cfg s job h1 h2 h3

/-- Witness for C3 at the concrete API scenario. -/
theorem job_failure_never_aborts_witness :
    ∃ r, executeWorkflow envT exec0 apiCfg = Except.ok r ∧
      r.status = WorkflowStatus.completed :=
  job_failure_never_aborts.2.1 envT exec0 apiCfg "start"
    (simpleJob "start" "Start" [("api", "out")] []) rfl (by decide) rfl

/-- C4 counterexample: in the document whose start job connects to the
unknown id `ghost`, the traversal reaches `ghost` (the job-not-found error is
recorded in the run log), yet the run does not abort: it produces a
`completed` result, because the rejected branch is swallowed by the
`Promise.allSettled` join. -/
theorem jobNotFound_counterexample :
    workflowStatusProbe envT exec0 ghostCfg = some WorkflowStatus.completed ∧
    findJob ghostCfg "ghost" = none ∧
    ("[T] " ++ jobNotFoundMsg "ghost" ghostCfg) ∈ runLogProbe envT exec0 ghostCfg := by
  refine ⟨by decide, rfl, by decide⟩

/-- C4 as amended: the run aborts with the job-not-found error exactly when
the start node id has no job; a missing id reached through a followed
connection makes its visit throw that error without scheduling anything, but
a visit of an id whose job exists never throws, so the error of a deeper
branch is dropped by the failure-tolerant join and the run continues. -/
theorem engine_abort_only_at_start :
    (∀ (env : Env) (exec : RealWorkflowExecutor) (cfg : BackendJobsConfig)
      (s : String), cfg.executionFlow.startNode = some s → s ≠ "" →
      findJob cfg s = none →
      executeWorkflow env exec cfg = Except.error (jobNotFoundMsg s cfg)) ∧
    (∀ (env : Env) (exec : RealWorkflowExecutor) (cfg : BackendJobsConfig)
      (n : String) (st : EngineState), n ∉ st.executedNodes →
      findJob cfg n = none →
      (visitNode env exec cfg n st).2.2 = some (jobNotFoundMsg n cfg) ∧
      (visitNode env exec cfg n st).2.1 = [] ∧
      (visitNode env exec cfg n st).1.invocations = st.invocations) ∧
    (∀ (env : Env) (exec : RealWorkflowExecutor) (cfg : BackendJobsConfig)
      (n : String) (st : EngineState) (job : BackendJob),
      findJob cfg n = some job → (visitNode env exec cfg n st).2.2 = none) := by
  refine ⟨?_, ?_, ?_⟩
  · intro env exec cfg s h1 h2 h3
    exact executeWorkflow_abort_of_start_missing env exec cfg s h1 h2 h3
  · intro env exec cfg n st hg hf
    exact visitNode_notfound env exec cfg n st hg hf
  · intro env exec cfg n st job hf
    exact visitNode_no_error env exec cfg n st job hf

/-- Witness for the amended C4: a document whose start id has no job aborts
with the job-not-found error. -/
theorem engine_abort_only_at_start_witness :
    executeWorkflow envT exec0
      { jobs := [], executionFlow :=
          { startNode := some "s", totalJobs := 0, hasConditionalFlow := false } } =
      Except.error (jobNotFoundMsg "s"
        { jobs := [], executionFlow :=
            { startNode := some "s", totalJobs := 0, hasConditionalFlow := false } }) :=
  engine_abort_only_at_start.1 envT exec0
    { jobs := [], executionFlow :=
        { startNode := some "s", totalJobs := 0, hasConditionalFlow := false } }
    "s" rfl (by decide) rfl

/-- C5: routing - a conditional job with boolean result `v` feeds exactly the
connections whose condition tag is the string form of `v` (never the opposite
branch), and a non-conditional job feeds exactly the connections tagged
`out` or `default`. -/
theorem getNextJobs_routing (job : BackendJob) (jr : JobResult) (t : String) :
    (∀ v, job.isConditional = true → resultConditionResult jr.result = some v →
      (t ∈ getNextJobs job jr ↔ ∃ c ∈ job.connections, c.targetJobId = t ∧
        c.condition = (if truthy v then "true" else "false"))) ∧
    (job.isConditional = false →
      (t ∈ getNextJobs job jr ↔ ∃ c ∈ job.connections, c.targetJobId = t ∧
        (c.condition = "out" ∨ c.condition = "default"))) := by
  constructor
  · intro v hc hr
    simp only [getNextJobs, hc, hr, Option.isSome_some, Bool.and_self, if_true,
      Option.getD_some, List.mem_map, List.mem_filter, beq_iff_eq]
    constructor
    · rintro ⟨c, ⟨h1, h2⟩, h3⟩
      exact ⟨c, h1, h3, h2⟩
    · rintro ⟨c, h1, h3, h2⟩
      exact ⟨c, ⟨h1, h2⟩, h3⟩
  · intro hc
    simp only [getNextJobs, hc, Bool.false_and, Bool.false_eq_true, if_false,
      List.mem_map, List.mem_filter, Bool.or_eq_true, beq_iff_eq]
    constructor
    · rintro ⟨c, ⟨h1, h2⟩, h3⟩
      exact ⟨c, h1, h3, h2⟩
    · rintro ⟨c, h1, h3, h2⟩
      exact ⟨c, ⟨h1, h2⟩, h3⟩

/-- The conditional job and result used to witness the routing theorem. -/
def condJobW : BackendJob :=
  simpleJob "A" "Condition" [("T", "true"), ("F", "false")] []

/-- A completed condition result with `conditionResult` true. -/
def condJrW : JobResult :=
  { jobId := "A", type := "Condition", status := JobStatus.completed,
    result := some (JSValue.obj [("conditionResult", JSValue.bool true)]) }

/-- Witness for C5: on the concrete conditional job with result `true`, the
two characterizations apply. -/
theorem getNextJobs_routing_witness :
    ("T" ∈ getNextJobs condJobW condJrW ↔ ∃ c ∈ condJobW.connections,
      c.targetJobId = "T" ∧
      c.condition = (if truthy (JSValue.bool true) then "true" else "false")) ∧
    ("F" ∈ getNextJobs (simpleJob "E" "End" [] []) condJrW ↔
      ∃ c ∈ (simpleJob "E" "End" [] []).connections, c.targetJobId = "F" ∧
        (c.condition = "out" ∨ c.condition = "default")) :=
  ⟨(getNextJobs_routing condJobW condJrW "T").1 (JSValue.bool true) rfl rfl,
   (getNextJobs_routing (simpleJob "E" "End" [] []) condJrW "F").2 rfl⟩

/-- The APICall job used in the timeout claims (no timeout attribute). -/
def apiJobW : BackendJob :=
  { simpleJob "a" "APICall" [] [] with
    attributes := { nodeId := "a", label := "a", url := some "u" } }

/-- A fresh pending job result for the timeout claims. -/
def apiJrW : JobResult := { jobId := "a", type := "APICall", status := JobStatus.pending }

/-- C9 counterexample: the constructor default for the API timeout is
60000 ms, not 30 seconds (30000 ms is the script timeout default), and with
no timeout attribute an aborted request fails the job with the 60000 ms
timeout message. -/
theorem apiTimeout_default_counterexample :
    (mkRealWorkflowExecutor {}).apiTimeout = 60000 ∧
    (mkRealWorkflowExecutor {}).scriptTimeout = 30000 ∧
    requestTimeoutOf (mkRealWorkflowExecutor {}) apiJobW.attributes = 60000 ∧
    (60000 : Nat) ≠ 30000 ∧
    (executeAPICallJob envAbort (mkRealWorkflowExecutor {}) apiJobW apiJrW).2 =
      some "API call timed out after 60000ms" := by
  refine ⟨rfl, rfl, rfl, by decide, by decide⟩

/-- C9 as amended: when the job attributes specify no timeout the request
runs under the executor `apiTimeout`, which the constructor defaults to
60000 ms (60 seconds); when that timeout aborts the request, the job fails
with the timeout-tagged message naming the effective timeout. -/
theorem apiCall_default_timeout (opts : ExecutorOptions) (env : Env)
    (job : BackendJob) (jr : JobResult) (url : String)
    (hopt : opts.apiTimeout = none)
    (htmo : job.attributes.timeout = none)
    (hurl : job.attributes.url = some url) (hne : url ≠ "")
    (habort : ∀ req, env.http req = HttpOutcome.abortError) :
    requestTimeoutOf (mkRealWorkflowExecutor opts) job.attributes = 60000 ∧
    (executeAPICallJob env (mkRealWorkflowExecutor opts) job jr).2 =
      some "API call timed out after 60000ms" := by
  have hrt : requestTimeoutOf (mkRealWorkflowExecutor opts) job.attributes = 60000 := by
    simp [requestTimeoutOf, htmo, mkRealWorkflowExecutor, hopt]
  refine ⟨hrt, ?_⟩
  simp only [executeAPICallJob, hurl]
  rw [if_neg (by simpa using hne)]
  rw [habort]
  simp only [hrt]
  rfl

/-- Witness for the amended C9 at the default-constructed executor. -/
theorem apiCall_default_timeout_witness :
    requestTimeoutOf (mkRealWorkflowExecutor {}) apiJobW.attributes = 60000 ∧
    (executeAPICallJob envAbort (mkRealWorkflowExecutor {}) apiJobW apiJrW).2 =
      some "API call timed out after 60000ms" :=
  apiCall_default_timeout {} envAbort apiJobW apiJrW "u" rfl rfl rfl (by decide)
    (fun _ => rfl)

/-- The SendEmail job with no recipient, subject or body attributes. -/
def emailJobW : BackendJob := simpleJob "m" "SendEmail" [] []

/-- A fresh pending job result for the email claims. -/
def emailJrW : JobResult :=
  { jobId := "m", type := "SendEmail", status := JobStatus.pending }

/-- An executor whose injected email collaborator always succeeds. -/
def execSend : RealWorkflowExecutor :=
  mkRealWorkflowExecutor { emailSendFunction := some (fun _ => Except.ok JSValue.null) }

/-- C10: a SendEmail job with the recipient list, subject and body attributes
absent does not fail for that reason - the payload is built with the fixed
defaults and handed to the injected collaborator - and the handler fails
before dispatch exactly when no email-sending collaborator was supplied. -/
theorem sendEmail_defaults (env : Env) (exec : RealWorkflowExecutor)
    (job : BackendJob) (jr : JobResult)
    (hto : job.attributes.«to» = none) (hsub : job.attributes.subject = none)
    (hbody : job.attributes.body = none) :
    (builtEmailData env job).«to» = ["test@example.com"] ∧
    (builtEmailData env job).subject = "Workflow Email Notification" ∧
    (builtEmailData env job).body =
      "This email was sent from a real workflow execution." ∧
    (exec.emailSendFunction = none →
      (executeSendEmailJob env exec job jr).2 =
        some "Email send function not provided to executor. Cannot send real emails.") ∧
    (∀ sendFn v, exec.emailSendFunction = some sendFn →
      sendFn (builtEmailData env job) = Except.ok v →
      (executeSendEmailJob env exec job jr).2 = none) ∧
    (∀ sendFn m, exec.emailSendFunction = some sendFn →
      sendFn (builtEmailData env job) = Except.error m →
      (executeSendEmailJob env exec job jr).2 =
        some s!"Failed to send real email: {m}") := by
  refine ⟨?_, ?_, ?_, ?_, ?_, ?_⟩
  · simp [builtEmailData, hto]
  · simp [builtEmailData, hsub]
  · simp [builtEmailData, hbody]
  · intro hnone
    simp [executeSendEmailJob, hnone]
  · intro sendFn v hsome hok
    simp [executeSendEmailJob, hsome, hok]
  · intro sendFn m hsome herr
    simp [executeSendEmailJob, hsome, herr]

/-- Witness for C10: the default-built payload and the two outcomes at the
concrete job with no email attributes. -/
theorem sendEmail_defaults_witness :
    (builtEmailData envT emailJobW).«to» = ["test@example.com"] ∧
    (executeSendEmailJob envT exec0 emailJobW emailJrW).2 =
      some "Email send function not provided to executor. Cannot send real emails." ∧
    (executeSendEmailJob envT execSend emailJobW emailJrW).2 = none :=
  ⟨(sendEmail_defaults envT exec0 emailJobW emailJrW rfl rfl rfl).1,
   (sendEmail_defaults envT exec0 emailJobW emailJrW rfl rfl rfl).2.2.2.1 rfl,
   (sendEmail_defaults envT execSend emailJobW emailJrW rfl rfl rfl).2.2.2.2.1
     (fun _ => Except.ok JSValue.null) JSValue.null rfl rfl⟩

/-- A required input handle. -/
def hInW : Handle := { id := "input", type := "input", position := "top", required := true }

/-- An output handle. -/
def hOutW : Handle := { id := "out", type := "output", position := "bottom" }

/-- Two Start nodes plus a two-node cycle, with every required input
connected. -/
def c6nodes : List WorkflowNode :=
  [ { id := "S1", type := "StartNode", label := "S1", handles := [hOutW] }
  , { id := "S2", type := "StartNode", label := "S2", handles := [hOutW] }
  , { id := "A", type := "AddTaskNode", label := "A", handles := [hInW, hOutW] }
  , { id := "B", type := "AddTaskNode", label := "B", handles := [hInW, hOutW] } ]

/-- The cyclic edges A→B→A. -/
def c6edges : List WorkflowEdge :=
  [ { id := "e1", src := "A", output := "out", tgt := "B", input := "input" }
  , { id := "e2", src := "B", output := "out", tgt := "A", input := "input" } ]

/-- C6 counterexample: a node set with two Start nodes and a directed cycle
that `validateWorkflow` nevertheless reports valid - the validator checks
neither the exactly-one-Start rule nor acyclicity. -/
theorem validateWorkflow_counterexample :
    (validateWorkflow c6nodes c6edges).isValid = true ∧
    (c6nodes.filter (fun n => n.type == "StartNode")).length = 2 ∧
    HasDirectedCycle (edgePairsOf c6edges) := by
  refine ⟨by decide, by decide, ?_⟩
  have h1 : EdgeStep (edgePairsOf c6edges) "A" "B" := by
    show ("A", "B") ∈ edgePairsOf c6edges
    decide
  have h2 : EdgeStep (edgePairsOf c6edges) "B" "A" := by
    show ("B", "A") ∈ edgePairsOf c6edges
    decide
  exact ⟨"A", Relation.TransGen.head h1 (Relation.TransGen.single h2)⟩

/-- C6 as amended: `validateWorkflow` reports `valid = false` exactly when
there is no Start node at all or some required input handle has no incoming
edge; each violation contributes its own distinct error string, and no other
condition (cycles, several Start nodes, multiple non-conditional parents) is
checked by it. -/
theorem validateWorkflow_isValid_characterization (nodes : List WorkflowNode)
    (edges : List WorkflowEdge) :
    (validateWorkflow nodes edges).isValid = true ↔
      ((nodes.filter (fun n => n.type == "StartNode")).length ≠ 0 ∧
       ∀ node ∈ nodes, ∀ h ∈ node.handles, h.type = "input" → h.required = true →
         ∃ e ∈ edges, e.tgt = node.id ∧ e.input = h.id) := by
  by_cases hstart : (nodes.filter (fun n => n.type == "StartNode")).length = 0
  · simp [validateWorkflow, hstart]
  · have hsf : ((nodes.filter (fun n => n.type == "StartNode")).length == 0) = false := by
      simpa using hstart
    simp only [validateWorkflow, hsf, Bool.false_eq_true, if_false, List.nil_append,
      beq_iff_eq, List.length_eq_zero, List.flatMap_eq_nil_iff,
      List.filterMap_eq_nil_iff, List.mem_filter, Bool.and_eq_true]
    constructor
    · intro H
      refine ⟨hstart, ?_⟩
      intro node hn h hh ht hr
      have hmem : h ∈ node.handles ∧ (h.type == "input") = true ∧ h.required = true :=
        ⟨hh, by simp [ht], hr⟩
      have := H node hn h ⟨hmem.1, by simp [ht, hr]⟩
      by_cases hq : edges.any (fun e => e.tgt == node.id && e.input == h.id) = true
      · rcases List.any_eq_true.mp hq with ⟨e, he, hcond⟩
        simp only [Bool.and_eq_true] at hcond
        exact ⟨e, he, by simpa using hcond.1, by simpa using hcond.2⟩
      · rw [if_neg hq] at this
        cases this
    · rintro ⟨-, H⟩ node hn h hmem
      rcases hmem with ⟨hh, hcond⟩
      rcases H node hn h hh (by simpa using hcond.1) hcond.2 with ⟨e, he, h1, h2⟩
      rw [if_pos]
      exact List.any_eq_true.mpr ⟨e, he, by simp [h1, h2]⟩

/-- The pure evaluation underlying the condition loop (the loop additionally
logs; its verdict does not depend on the log state). -/
def evalConditionsPure (ctx : List (String × JSValue)) :
    List ConditionSpec → Except String (List Bool)
  | [] => .ok []
  | c :: rest =>
    match evalConditionOp c.operator ((ctx.lookup c.field).getD .null) c.value with
    | .error msg => .error msg
    | .ok b =>
      match evalConditionsPure ctx rest with
      | .ok bs => .ok (b :: bs)
      | .error m => .error m

/-- The verdict of the condition loop is its pure evaluation, independent of
the running index and of the job log. -/
theorem evalConditionsLoop_snd (env : Env) (ctx : List (String × JSValue)) :
    ∀ (l : List ConditionSpec) (i : Nat) (jr : JobResult),
      (evalConditionsLoop env ctx l i jr).2 = evalConditionsPure ctx l := by
  intro l
  induction l with
  | nil => intro i jr; rfl
  | cons c rest ih =>
    intro i jr
    simp only [evalConditionsLoop, evalConditionsPure]
    rcases hop : evalConditionOp c.operator ((ctx.lookup c.field).getD .null) c.value
      with m | b
    · rfl
    · dsimp only
      rw [ih (i + 1) _]
      cases evalConditionsPure ctx rest <;> rfl

/-- The operator switch rejects every operator outside the eight known ones. -/
theorem evalConditionOp_unknown (op : String) (fv v : JSValue)
    (hop : op ∉ ["equals", "not_equals", "greater_than", "less_than",
      "contains", "not_contains", "is_empty", "is_not_empty"]) :
    evalConditionOp op fv v = .error s!"Unknown operator: {op}" := by
  simp only [evalConditionOp]
  split <;> simp_all

/-- The final state of the Condition scenario: visit the condition node `A`
of `condCfg` from the seeded state and drain the work stack. -/
def condFinalState : EngineState :=
  let r := visitNode envT exec0 condCfg "A" condSeededState
  engineWorklist envT exec0 condCfg (traversalFuel condCfg) r.2.1 r.1

/-- `jobResults["A"].result.conditionResult` of the finished Condition
scenario, as a boolean. -/
def condResultProbe : Option Bool :=
  match (lookupJR condFinalState.wr.jobResults "A").bind
      (fun jr => resultConditionResult jr.result) with
  | some (.bool b) => some b
  | _ => none

/-- C7: for a Condition job with a non-empty condition list the handler
combines the per-condition verdicts (evaluated against the context assembled
from prior job results) with the AND/OR logic attribute into
`result.conditionResult`; an unknown operator makes the pure evaluation, and
with it the job, fail; and in the concrete scenario x = "1" with
`x equals "1"` the condition node completes with conditionResult true and
only the true branch T executes, never F. -/
theorem condition_evaluation (env : Env) (job : BackendJob) (jr : JobResult)
    (wr : WorkflowExecutionResult) (c : ConditionSpec) (cs : List ConditionSpec)
    (hconds : job.attributes.conditions = some (c :: cs)) :
    (∀ results,
        evalConditionsPure (getJobResultsForScript wr) (c :: cs) = .ok results →
        (executeConditionJob env job jr wr).2 = none ∧
        resultConditionResult (executeConditionJob env job jr wr).1.result =
          some (.bool (if job.attributes.logic.getD "AND" == "AND"
                        then results.all id else results.any id))) ∧
    (∀ msg,
        evalConditionsPure (getJobResultsForScript wr) (c :: cs) = .error msg →
        (executeConditionJob env job jr wr).2 = some msg) ∧
    (∀ op fv v, op ∉ ["equals", "not_equals", "greater_than", "less_than",
        "contains", "not_contains", "is_empty", "is_not_empty"] →
        evalConditionOp op fv v = .error s!"Unknown operator: {op}") ∧
    ((getJobResultsForScript condSeededState.wr).lookup "x" = some (.str "1") ∧
     condResultProbe = some true ∧
     "A" ∈ condFinalState.executedNodes ∧
     "T" ∈ condFinalState.executedNodes ∧
     "F" ∉ condFinalState.executedNodes ∧
     "F" ∉ condFinalState.invocations) := by
  refine ⟨?_, ?_, ?_, rfl, by decide, by decide, by decide, by decide, by decide⟩
  · intro results hok
    simp only [executeConditionJob, hconds]
    split
    · rename_i jr1 msg heq
      have h2 := congrArg Prod.snd heq
      rw [evalConditionsLoop_snd, hok] at h2
      cases h2
    · rename_i jr1 results0 heq
      have h2 := congrArg Prod.snd heq
      rw [evalConditionsLoop_snd, hok] at h2
      have h3 : results = results0 := Except.ok.inj h2
      subst h3
      exact ⟨rfl, rfl⟩
  · intro msg hbad
    simp only [executeConditionJob, hconds]
    split
    · rename_i jr1 msg0 heq
      have h2 := congrArg Prod.snd heq
      rw [evalConditionsLoop_snd, hbad] at h2
      have h3 : msg = msg0 := Except.error.inj h2
      subst h3
      rfl
    · rename_i jr1 results0 heq
      have h2 := congrArg Prod.snd heq
      rw [evalConditionsLoop_snd, hbad] at h2
      cases h2
  · intro op fv v hop
    exact evalConditionOp_unknown op fv v hop

/-- The single condition of the scenario job. -/
def condSpecA : ConditionSpec :=
  { field := "x", operator := "equals", value := JSValue.str "1" }

/-- The Condition job of the scenario document. -/
def condJobA : BackendJob :=
  (findJob condCfg "A").getD (simpleJob "A" "Condition" [] [])

theorem condition_evaluation_witness :
    (executeConditionJob envT condJobA (initJobResult condJobA)
      condSeededState.wr).2 = none ∧
    resultConditionResult (executeConditionJob envT condJobA
        (initJobResult condJobA) condSeededState.wr).1.result =
      some (.bool (if condJobA.attributes.logic.getD "AND" == "AND"
                    then [true].all id else [true].any id)) :=
  (condition_evaluation envT condJobA (initJobResult condJobA)
    condSeededState.wr condSpecA [] rfl).1 [true] rfl

/-- A failed upstream result, for exercising the failed-dependency path. -/
def c2jrB : JobResult :=
  { jobId := "B", type := "AddTask", status := JobStatus.failed }

/-- A pending downstream result, for exercising the failed-dependency path. -/
def c2jrD : JobResult :=
  { jobId := "D", type := "End", status := JobStatus.pending }

/-- The downstream job depending on the failed `B`. -/
def c2JobD : BackendJob := simpleJob "D" "End" [] ["B"]

/-- A state where `B` has executed and failed while `D` is still pending. -/
def c2St : EngineState :=
  { wr := { initWorkflowResult envT diamondCfg with
              jobResults := [("B", c2jrB), ("D", c2jrD)] }
  , executedNodes := ["B"]
  , invocations := ["B"]
  , dispatchLog := [] }

theorem dependency_gate_and_deferral_witness :
    (∀ dep ∈ (simpleJob "D" "End" [] ["B", "C"]).dependencies,
        dep.sourceJobId ∈ ["A", "B", "C"]) ∧
    ((visitNode envT exec0 diamondCfg "D" (initState envT diamondCfg "A")).2.1 = [] ∧
     (visitNode envT exec0 diamondCfg "D" (initState envT diamondCfg "A")).2.2 = none ∧
     (visitNode envT exec0 diamondCfg "D" (initState envT diamondCfg "A")).1.invocations =
       (initState envT diamondCfg "A").invocations ∧
     (visitNode envT exec0 diamondCfg "D" (initState envT diamondCfg "A")).1.executedNodes =
       (initState envT diamondCfg "A").executedNodes) ∧
    depIsPending c2St { sourceJobId := "B", condition := "out" } = false ∧
    (∃ jr2,
      lookupJR (applyFailedDepsWarning envT c2St "D" c2JobD).wr.jobResults "D" =
        some jr2 ∧
      jr2.logs = c2jrD.logs ++
        [s!"Warning: Continuing despite failed dependencies: {failedListString c2St c2JobD}"]) :=
  ⟨dependency_gate_and_deferral.1 envT exec0 diamondCfg "A" ("D", ["A", "B", "C"])
      (by decide) (simpleJob "D" "End" [] ["B", "C"]) rfl,
   dependency_gate_and_deferral.2.1 envT exec0 diamondCfg "D"
      (initState envT diamondCfg "A") (simpleJob "D" "End" [] ["B", "C"])
      (by decide) rfl (by decide),
   dependency_gate_and_deferral.2.2.1 c2St { sourceJobId := "B", condition := "out" }
      (by decide) (by decide),
   dependency_gate_and_deferral.2.2.2 envT c2St "D" c2JobD c2jrD (by decide) rfl⟩
